import Mathlib

/-!
Verification of the SOAP protocol core of pyexchange (`src/base/soap.py`).

The Python module is shallowly embedded: lxml element trees become the
inductive type `Soap.Xml` (tag = expanded name, attribute list, optional
text, child list; tails/mixed content after a child are not used by this
code base and are not modelled), Python exceptions become the error side
of `Except`, and `datetime.strptime` is modelled faithfully for the two
format strings the module uses (CPython `_strptime` compiles `%m`, `%d`,
`%H`, `%M`, `%S` to the regexes `1[0-2]|0[1-9]|[1-9]` etc., `%Y` to four
digits, and matches literals case-insensitively, so one-digit fields and a
lowercase t or z are accepted).  Byte strings are modelled by their decoded
character sequences: `pyEncode` keeps the characters and only records
whether the codec accepts them, which is faithful because parsing the
encoded bytes yields the same characters back.
-/

set_option maxRecDepth 200000

namespace Soap

/-- Module constant `SOAP_NS` of soap.py. -/
def SOAP_NS : String := "http://schemas.xmlsoap.org/soap/envelope/"

/-- Module constant `TYPE_NS` of soap.py. -/
def TYPE_NS : String := "http://schemas.microsoft.com/exchange/services/2006/types"

/-- Module constant `SOAP_NAMESPACES = {'t': TYPE_NS, 's': SOAP_NS}`. -/
def SOAP_NAMESPACES : List (String × String) := [("t", TYPE_NS), ("s", SOAP_NS)]

/-- Class constant `ExchangeServiceSOAP.EXCHANGE_DATE_FORMAT`. -/
def EXCHANGE_DATE_FORMAT : String := "%Y-%m-%dT%H:%M:%SZ"

/-- An expanded XML name: namespace URI (lxml writes it as the Clark form
    brace-uri-brace before the local part) and local part. -/
structure XName where
  ns : Option String
  loc : String
deriving DecidableEq, Repr

/-- An lxml element: expanded tag, attributes (plain names, as used by this
    code base), optional text and the list of child elements. -/
inductive Xml where
  | elem (tag : XName) (attrs : List (String × String)) (text : Option String) (children : List Xml)
deriving Repr

/-- The element's expanded tag. -/
def Xml.tag : Xml → XName
  | .elem t _ _ _ => t

/-- The element's attribute list. -/
def Xml.attrs : Xml → List (String × String)
  | .elem _ a _ _ => a

/-- `element.text` of lxml: `none` models Python `None`. -/
def Xml.text : Xml → Option String
  | .elem _ _ tx _ => tx

/-- The element's children, in document order. -/
def Xml.children : Xml → List Xml
  | .elem _ _ _ cs => cs

/-- The Python exceptions this module can raise or let escape. -/
inductive PyError where
  | valueError (msg : String)
  | typeError (msg : String)
  | attributeError (msg : String)
  | xmlSyntaxError (msg : String)
  | unicodeEncodeError (msg : String)
  | xpathEvalError (msg : String)
  | failedExchangeException (message : String) (response : Option (Option String))
deriving DecidableEq, Repr

/-- A tzinfo value: `pytz.utc`, or a named zone from `pytz.timezone`
    (imported by soap.py; never attached by it). -/
inductive Tzinfo where
  | utc
  | named (zone : String)
deriving DecidableEq, Repr

/-- A `datetime.datetime` value as this module uses it. -/
structure PyDatetime where
  year : Nat
  month : Nat
  day : Nat
  hour : Nat
  minute : Nat
  second : Nat
  tzinfo : Option Tzinfo
deriving DecidableEq, Repr

/-- A `datetime.date` value: a naive calendar date, no time, no zone. -/
structure PyDate where
  year : Nat
  month : Nat
  day : Nat
deriving DecidableEq, Repr

/-- Proleptic Gregorian leap year, as `datetime` uses. -/
def isLeap (y : Nat) : Bool := y % 4 = 0 && (y % 100 ≠ 0 || y % 400 = 0)

/-- Days in a month, as `datetime` validates the day field. -/
def daysInMonth (y m : Nat) : Nat :=
  if m = 2 then (if isLeap y then 29 else 28)
  else if m = 4 || m = 6 || m = 9 || m = 11 then 30
  else 31

/-- One compiled token of a strptime format string. -/
inductive FmtTok where
  | dirY
  | dirMonth
  | dirDay
  | dirHour
  | dirMinute
  | dirSecond
  | lit (c : Char)
deriving DecidableEq, Repr

/-- CPython `_strptime.TimeRE` compiled to the directives soap.py uses;
    an unsupported directive yields `none`. -/
def compileFormat : List Char → Option (List FmtTok)
  | [] => some []
  | '%' :: c :: rest =>
    (compileFormat rest).bind fun toks =>
      if c = 'Y' then some (.dirY :: toks)
      else if c = 'm' then some (.dirMonth :: toks)
      else if c = 'd' then some (.dirDay :: toks)
      else if c = 'H' then some (.dirHour :: toks)
      else if c = 'M' then some (.dirMinute :: toks)
      else if c = 'S' then some (.dirSecond :: toks)
      else none
  | ['%'] => none
  | c :: rest => (compileFormat rest).map fun toks => .lit c :: toks

/-- Numeric value of an ASCII digit. -/
def digitVal (c : Char) : Nat := c.toNat - 48

/-- Matcher for a strptime numeric directive whose regex is a two-digit
    alternative first, then a one-digit alternative (the regex engine tries
    them left to right; in the formats used a number is always followed by a
    non-digit literal, so no backtracking across fields can succeed). -/
def matchTwoOrOne (valid2 : Char → Char → Bool) (valid1 : Char → Bool) :
    List Char → Option (Nat × List Char)
  | c1 :: c2 :: rest =>
    if valid2 c1 c2 then some (digitVal c1 * 10 + digitVal c2, rest)
    else if valid1 c1 then some (digitVal c1, c2 :: rest)
    else none
  | [c1] => if valid1 c1 then some (digitVal c1, []) else none
  | [] => none

/-- `%Y`: exactly four digits. -/
def matchYear : List Char → Option (Nat × List Char)
  | c1 :: c2 :: c3 :: c4 :: rest =>
    if c1.isDigit && c2.isDigit && c3.isDigit && c4.isDigit then
      some (digitVal c1 * 1000 + digitVal c2 * 100 + digitVal c3 * 10 + digitVal c4, rest)
    else none
  | _ => none

/-- `%m`: regex `1[0-2]|0[1-9]|[1-9]`. -/
def matchMonth : List Char → Option (Nat × List Char) :=
  matchTwoOrOne
    (fun c1 c2 => (c1 = '1' && '0' ≤ c2 && c2 ≤ '2') || (c1 = '0' && '1' ≤ c2 && c2 ≤ '9'))
    (fun c1 => '1' ≤ c1 && c1 ≤ '9')

/-- `%d`: regex `3[01]|[12][0-9]|0[1-9]|[1-9]`. -/
def matchDay : List Char → Option (Nat × List Char) :=
  matchTwoOrOne
    (fun c1 c2 =>
      (c1 = '3' && (c2 = '0' || c2 = '1')) ||
      ((c1 = '1' || c1 = '2') && c2.isDigit) ||
      (c1 = '0' && '1' ≤ c2 && c2 ≤ '9'))
    (fun c1 => '1' ≤ c1 && c1 ≤ '9')

/-- `%H`: regex `2[0-3]|[01][0-9]|[0-9]`. -/
def matchHour : List Char → Option (Nat × List Char) :=
  matchTwoOrOne
    (fun c1 c2 => (c1 = '2' && '0' ≤ c2 && c2 ≤ '3') || ((c1 = '0' || c1 = '1') && c2.isDigit))
    (fun c1 => c1.isDigit)

/-- `%M` and `%S`: regex `[0-5][0-9]|[0-9]`. -/
def matchMinSec : List Char → Option (Nat × List Char) :=
  matchTwoOrOne
    (fun c1 c2 => '0' ≤ c1 && c1 ≤ '5' && c2.isDigit)
    (fun c1 => c1.isDigit)

/-- ASCII lower case of one character (enough for the texts compared here). -/
def cLower (c : Char) : Char := c.toLower

/-- The fields strptime collects, with its documented defaults. -/
structure RawFields where
  y : Nat
  mo : Nat
  dd : Nat
  hh : Nat
  mi : Nat
  ss : Nat
deriving DecidableEq, Repr

/-- strptime defaults: 1900-01-01 00:00:00. -/
def defaultFields : RawFields := ⟨1900, 1, 1, 0, 0, 0⟩

/-- Run a compiled format against the input (literals match
    case-insensitively, as `_strptime` compiles with IGNORECASE). -/
def runFormat : List FmtTok → RawFields → List Char → Option (RawFields × List Char)
  | [], f, input => some (f, input)
  | .dirY :: toks, f, input =>
    (matchYear input).bind fun p => runFormat toks ⟨p.1, f.mo, f.dd, f.hh, f.mi, f.ss⟩ p.2
  | .dirMonth :: toks, f, input =>
    (matchMonth input).bind fun p => runFormat toks ⟨f.y, p.1, f.dd, f.hh, f.mi, f.ss⟩ p.2
  | .dirDay :: toks, f, input =>
    (matchDay input).bind fun p => runFormat toks ⟨f.y, f.mo, p.1, f.hh, f.mi, f.ss⟩ p.2
  | .dirHour :: toks, f, input =>
    (matchHour input).bind fun p => runFormat toks ⟨f.y, f.mo, f.dd, p.1, f.mi, f.ss⟩ p.2
  | .dirMinute :: toks, f, input =>
    (matchMinSec input).bind fun p => runFormat toks ⟨f.y, f.mo, f.dd, f.hh, p.1, f.ss⟩ p.2
  | .dirSecond :: toks, f, input =>
    (matchMinSec input).bind fun p => runFormat toks ⟨f.y, f.mo, f.dd, f.hh, f.mi, p.1⟩ p.2
  | .lit c :: toks, f, input =>
    match input with
    | [] => none
    | d :: rest => if cLower d = cLower c then runFormat toks f rest else none

/-- The `datetime` constructor's validation of the collected fields
    (range errors raise ValueError, as from `datetime.datetime`). -/
def mkDatetimeChecked (f : RawFields) : Except PyError PyDatetime :=
  if f.y = 0 then .error (.valueError ("year 0 is out of range"))
  else if f.dd > daysInMonth f.y f.mo then .error (.valueError "day is out of range for month")
  else .ok ⟨f.y, f.mo, f.dd, f.hh, f.mi, f.ss, none⟩

/-- `datetime.strptime(s, fmt)` for the directives soap.py uses. -/
def strptime (s : String) (fmt : String) : Except PyError PyDatetime :=
  match compileFormat fmt.toList with
  | none => .error (.valueError ("bad directive in format " ++ fmt))
  | some toks =>
    match runFormat toks defaultFields s.toList with
    | none => .error (.valueError ("time data " ++ s ++ " does not match format " ++ fmt))
    | some (f, []) => mkDatetimeChecked f
    | some (_, c :: rest) =>
      .error (.valueError ("unconverted data remains: " ++ String.mk (c :: rest)))

/-- `ExchangeServiceSOAP._parse_date`: strptime with the full format, then
    `date.replace(tzinfo=utc)`. -/
def _parse_date (date_string : String) : Except PyError PyDatetime :=
  (strptime date_string EXCHANGE_DATE_FORMAT).map fun d =>
    ⟨d.year, d.month, d.day, d.hour, d.minute, d.second, some Tzinfo.utc⟩

/-- `ExchangeServiceSOAP._parse_date_only_naive`: strptime of
    `date_string[0:10]` with `EXCHANGE_DATE_FORMAT[0:8]`, then `.date()`. -/
def _parse_date_only_naive (date_string : String) : Except PyError PyDate :=
  (strptime (String.mk (date_string.toList.take 10))
      (String.mk (EXCHANGE_DATE_FORMAT.toList.take 8))).map fun d =>
    ⟨d.year, d.month, d.day⟩

/-- The whitespace characters `int()` strips. -/
def pyWs (c : Char) : Bool :=
  c = ' ' || c = '\t' || c = '\n' || c = '\x0d' || c = '\x0b' || c = '\x0c'

/-- Sign and digits of a stripped `int()` argument. -/
def pyIntCore : List Char → Option Int
  | [] => none
  | '+' :: ds => if ds ≠ [] && ds.all Char.isDigit then some (ds.foldl (fun a c => a * 10 + Int.ofNat (digitVal c)) 0) else none
  | '-' :: ds => if ds ≠ [] && ds.all Char.isDigit then some (-(ds.foldl (fun a c => a * 10 + Int.ofNat (digitVal c)) 0)) else none
  | ds => if ds.all Char.isDigit then some (ds.foldl (fun a c => a * 10 + Int.ofNat (digitVal c)) 0) else none

/-- Python 2 `int(text)`: strip whitespace, optional sign, base-10 digits;
    anything else raises ValueError naming the raw text. -/
def pyIntOfString (s : String) : Except PyError Int :=
  match pyIntCore (((s.toList.dropWhile pyWs).reverse.dropWhile pyWs).reverse) with
  | some v => .ok v
  | none => .error (.valueError ("invalid literal for int() with base 10: " ++ s))

/-- Python `unicode.lower()` restricted to ASCII (all this module compares). -/
def pyLower (s : String) : String := String.mk (s.toList.map cLower)

/-- One step of the relative child-axis xpath expressions the property maps
    use (`t:Mailbox/t:Name`): optional namespace abbreviation and local name. -/
structure XStep where
  pfx : Option String
  loc : String
deriving DecidableEq, Repr

/-- One entry of a property map: the path expression (already split at `/`)
    and `item.get('cast', None)`. -/
structure FieldSpec where
  xpath : List XStep
  cast : Option String
deriving DecidableEq, Repr

/-- Resolve a step against the caller's namespace map; an unbound
    abbreviation makes lxml raise XPathEvalError. -/
def resolveStep (nsmap : List (String × String)) (st : XStep) : Except PyError XName :=
  match st.pfx with
  | none => .ok ⟨none, st.loc⟩
  | some p =>
    match nsmap.lookup p with
    | some uri => .ok ⟨some uri, st.loc⟩
    | none => .error (.xpathEvalError ("Undefined namespace " ++ p))

/-- The children of `x` whose expanded tag is `n`, in document order. -/
def childrenNamed (n : XName) (x : Xml) : List Xml :=
  x.children.filter fun c => c.tag = n

/-- `element.xpath(expr, namespaces=nsmap)` for a relative child-axis
    expression: each step maps the current node set to the matching
    children, keeping document order. -/
def xpathNodes (cur : List Xml) : List XStep → List (String × String) → Except PyError (List Xml)
  | [], _ => .ok cur
  | st :: rest, nsmap =>
    match resolveStep nsmap st with
    | .error e => .error e
    | .ok n => xpathNodes (cur.flatMap (childrenNamed n)) rest nsmap

/-- `element.xpath(expr, namespaces=nsmap)` for a relative child-axis
    expression: each step maps the current node set to the matching
    children, keeping document order. -/
def xpathEval (element : Xml) (steps : List XStep) (nsmap : List (String × String)) :
    Except PyError (List Xml) :=
  xpathNodes [element] steps nsmap

/-- A value the extraction loop appends for one matched node. -/
inductive Value where
  | vStr (s : String)
  | vNone
  | vInt (n : Int)
  | vBool (b : Bool)
  | vDatetime (d : PyDatetime)
  | vDate (d : PyDate)
deriving DecidableEq, Repr

/-- What one key of the result dictionary is bound to. -/
inductive ResultVal where
  | single (v : Value)
  | multiple (vs : List Value)
  | nullVal
deriving DecidableEq, Repr

/-- The body of the `for node in nodes` loop of `_xpath_to_dict`: the
    sequential cast-name comparison of soap.py lines 116-130.  A node with
    `text = None` raises: `strptime(None, ...)` and `int(None)` are
    TypeErrors, `None.lower()` an AttributeError; an unknown cast name falls
    through to the raw-text branch. -/
def coerceNode (castAs : Option String) (node : Xml) : Except PyError Value :=
  if castAs = some "datetime" then
    match node.text with
    | none => .error (.typeError "strptime() argument 1 must be str, not None")
    | some s => (_parse_date s).map Value.vDatetime
  else if castAs = some "date_only_naive" then
    match node.text with
    | none => .error (.typeError "NoneType object is not subscriptable")
    | some s => (_parse_date_only_naive s).map Value.vDate
  else if castAs = some "int" then
    match node.text with
    | none => .error (.typeError "int() argument must be a string or a number, not NoneType")
    | some s => (pyIntOfString s).map Value.vInt
  else if castAs = some "bool" then
    match node.text with
    | none => .error (.attributeError "NoneType object has no attribute lower")
    | some s => .ok (.vBool (pyLower s = "true"))
  else
    .ok (match node.text with
         | none => .vNone
         | some s => .vStr s)

/-- The `result_for_node` accumulation: coerce each matched node in order,
    the first exception aborting the loop. -/
def coerceAll (castAs : Option String) : List Xml → Except PyError (List Value)
  | [] => .ok []
  | n :: ns =>
    match coerceNode castAs n with
    | .error e => .error e
    | .ok v =>
      match coerceAll castAs ns with
      | .error e => .error e
      | .ok vs => .ok (v :: vs)

/-- The collapse of `result_for_node` into the dictionary entry
    (soap.py lines 132-137). -/
def collapse (vals : List Value) : ResultVal :=
  match vals with
  | [] => .nullVal
  | [v] => .single v
  | vs => .multiple vs

/-- `ExchangeServiceSOAP._xpath_to_dict`.  The property map is the
    key-to-FieldSpec dictionary in iteration order; the result dictionary is
    the association list of the keys bound, in insertion order.  A key whose
    path matches no node is skipped; otherwise the coerced values are
    collapsed and the entry appended. -/
def _xpath_to_dict (element : Xml) (property_map : List (String × FieldSpec))
    (namespace_map : List (String × String)) :
    Except PyError (List (String × ResultVal)) :=
  match property_map with
  | [] => .ok []
  | (key, item) :: rest =>
    match xpathEval element item.xpath namespace_map with
    | .error e => .error e
    | .ok nodes =>
      if nodes.isEmpty then
        _xpath_to_dict element rest namespace_map
      else
        match coerceAll item.cast nodes with
        | .error e => .error e
        | .ok vals =>
          match _xpath_to_dict element rest namespace_map with
          | .error e => .error e
          | .ok restR => .ok ((key, collapse vals) :: restR)

/-- `ElementMaker(namespace=SOAP_NS, ...)` applied to a tag: build a
    SOAP-namespaced element. -/
def sElem (loc : String) (attrs : List (String × String)) (text : Option String)
    (children : List Xml) : Xml :=
  .elem ⟨some SOAP_NS, loc⟩ attrs text children

/-- `ElementMaker(namespace=TYPE_NS, ...)` applied to a tag: build a
    types-namespaced element. -/
def tElem (loc : String) (attrs : List (String × String)) (text : Option String)
    (children : List Xml) : Xml :=
  .elem ⟨some TYPE_NS, loc⟩ attrs text children

/-- `user_availability_header()`, exactly the tree the builder calls on
    lines 200-249 construct (the docstring above them shows a different
    tree: three periods, two transitions groups — with ids 0 and 1 — and an
    absolute transition into group 1 dated 2007; the code builds two
    periods, one transitions group and both transitions into group 0). -/
def user_availability_header : Xml :=
  sElem "Header" [] none
    [ tElem "RequestServerVersion" [("Version", "Exchange2010")] none []
    , tElem "TimeZoneContext" [] none
      [ tElem "TimeZoneDefinition"
          [ ("Name", "(UTC-08:00) Pacific Time (US &amp; Canada)")
          , ("Id", "Pacific Standard Time") ] none
          [ tElem "Periods" [] none
            [ tElem "Period" [("Bias", "P0DT8H0M0.0S"), ("Name", "Standard"), ("Id", "Std")] none []
            , tElem "Period" [("Bias", "P0DT7H0M0.0S"), ("Name", "Daylight"), ("Id", "Dlt/1")] none []
            ]
          , tElem "TransitionsGroups" [] none
            [ tElem "TransitionsGroup" [("Id", "0")] none
              [ tElem "RecurringDayTransition" [] none
                [ tElem "To" [("Kind", "Period")] (some "Dlt/1") []
                , tElem "TimeOffset" [] (some "P0DT2H0M0.0S") []
                , tElem "Month" [] (some "3") []
                , tElem "DayOfWeek" [] (some "Sunday") []
                , tElem "Occurrence" [] (some "1") []
                ]
              , tElem "RecurringDayTransition" [] none
                [ tElem "To" [("Kind", "Period")] (some "Std") []
                , tElem "TimeOffset" [] (some "P0DT2H0M0.0S") []
                , tElem "Month" [] (some "11") []
                , tElem "DayOfWeek" [] (some "Sunday") []
                , tElem "Occurrence" [] (some "1") []
                ]
              ]
            ]
          , tElem "Transitions" [] none
            [ tElem "Transition" [] none
              [ tElem "To" [("Kind", "Group")] (some "0") [] ]
            , tElem "AbsoluteDateTransition" [] none
              [ tElem "To" [("Kind", "Group")] (some "0") []
              , tElem "DateTime" [] (some "2015-03-01T08:00:00.000Z") []
              ]
            ]
          ]
      ]
    ]

/-- `ExchangeServiceSOAP._exchange_header`. -/
def _exchange_header (user_availability_req : Bool) : Xml :=
  if user_availability_req then
    user_availability_header
  else
    sElem "Header" [] none [tElem "RequestServerVersion" [("Version", "Exchange2010")] none []]

/-- `ExchangeServiceSOAP._wrap_soap_xml_request`. -/
def _wrap_soap_xml_request (exchange_xml : Xml) (user_availability_req : Bool) : Xml :=
  sElem "Envelope" [] none
    [_exchange_header user_availability_req, sElem "Body" [] none [exchange_xml]]

/-! ### Serialization (`etree.tostring`) -/

/-- lxml text escaping: `&`, `<`, `>`. -/
def escTextChar (c : Char) : List Char :=
  if c = '&' then "&amp;".toList
  else if c = '<' then "&lt;".toList
  else if c = '>' then "&gt;".toList
  else [c]

/-- Escape the text content of an element. -/
def escText (s : List Char) : List Char := s.flatMap escTextChar

/-- lxml attribute-value escaping: `&`, `<`, `>` and the double quote. -/
def escAttrChar (c : Char) : List Char :=
  if c = '"' then "&quot;".toList else escTextChar c

/-- Escape an attribute value. -/
def escAttr (s : List Char) : List Char := s.flatMap escAttrChar

/-- The serialized qualified name: the nsmap of the two `ElementMaker`s
    assigns `s` to the envelope namespace and `t` to the types namespace. -/
def prefName (n : XName) : List Char :=
  match n.ns with
  | none => n.loc.toList
  | some u =>
    if u = SOAP_NS then 's' :: ':' :: n.loc.toList
    else if u = TYPE_NS then 't' :: ':' :: n.loc.toList
    else '?' :: ':' :: n.loc.toList

/-- The namespace declarations `tostring` hoists onto the root element. -/
def nsDecls : List Char :=
  (" xmlns:t=\"" ++ TYPE_NS ++ "\" xmlns:s=\"" ++ SOAP_NS ++ "\"").toList

/-- Serialize the attribute list, one space before each attribute. -/
def printAttrs : List (String × String) → List Char
  | [] => []
  | (k, v) :: rest => ' ' :: (k.toList ++ '=' :: '"' :: (escAttr v.toList ++ '"' :: printAttrs rest))

mutual
/-- Serialize one element; `decls` is emitted inside its open tag
    (the namespace declarations, on the root only). -/
def printElem (decls : List Char) : Xml → List Char
  | .elem t a tx cs =>
    if tx.isNone && cs.isEmpty then
      '<' :: (prefName t ++ decls ++ printAttrs a) ++ ['/', '>']
    else
      '<' :: (prefName t ++ decls ++ printAttrs a) ++ '>' ::
        ((match tx with | none => [] | some s => escText s.toList) ++
         (printKids cs ++ ('<' :: '/' :: (prefName t ++ ['>']))))

/-- Serialize a child list in order. -/
def printKids : List Xml → List Char
  | [] => []
  | c :: cs => printElem [] c ++ printKids cs
end

/-- The XML declaration `etree.tostring(..., encoding='utf-8')` emits. -/
def xmlDeclChars : List Char := "<?xml version='1.0' encoding='utf-8'?>\n".toList

/-- `etree.tostring(x, encoding='utf-8')`, modelled at character level. -/
def tostring (x : Xml) : String := String.mk (xmlDeclChars ++ printElem nsDecls x)

/-! ### Parsing (`etree.XML`) -/

/-- Characters a raw XML name may contain (sub-model: ASCII names). -/
def isNameChar (c : Char) : Bool := c.isAlphanum || c = '_' || c = '-' || c = '.' || c = ':'

/-- XML whitespace. -/
def isWsChar (c : Char) : Bool := c = ' ' || c = '\t' || c = '\n' || c = '\x0d'

/-- Drop leading whitespace. -/
def skipWs (input : List Char) : List Char := input.dropWhile isWsChar

/-- In-scope namespace declarations: the default namespace and the
    abbreviation bindings, innermost first. -/
structure NsEnv where
  dflt : Option String
  abbrevs : List (String × String)
deriving Repr

/-- The empty environment `etree.XML` starts from. -/
def emptyEnv : NsEnv := ⟨none, []⟩

/-- Split a raw qualified name at its first colon. -/
def splitColon : List Char → Option (List Char × List Char)
  | [] => none
  | ':' :: rest => some ([], rest)
  | c :: rest => (splitColon rest).map fun p => (c :: p.1, p.2)

/-- Resolve a raw tag name against the in-scope declarations; an unbound
    abbreviation is a parse error in lxml. -/
def resolveRaw (env : NsEnv) (nm : List Char) : Except PyError XName :=
  match splitColon nm with
  | none => .ok ⟨env.dflt, String.mk nm⟩
  | some (p, l) =>
    match env.abbrevs.lookup (String.mk p) with
    | some u => .ok ⟨some u, String.mk l⟩
    | none => .error (.xmlSyntaxError ("Namespace " ++ String.mk p ++ " not defined"))

/-- Is this raw attribute name the default-namespace declaration? -/
def isXmlnsDefault (nm : List Char) : Bool := nm = "xmlns".toList

/-- The abbreviation a `xmlns:p` attribute declares, if it is one. -/
def xmlnsAbbrev (nm : List Char) : Option String :=
  if nm.take 6 = "xmlns:".toList then some (String.mk (nm.drop 6)) else none

/-- Fold the element's raw attributes into the namespace environment. -/
def updateEnv (env : NsEnv) : List (List Char × List Char) → NsEnv
  | [] => env
  | (nm, v) :: rest =>
    let env' : NsEnv :=
      if isXmlnsDefault nm then ⟨some (String.mk v), env.abbrevs⟩
      else
        match xmlnsAbbrev nm with
        | some p => ⟨env.dflt, (p, String.mk v) :: env.abbrevs⟩
        | none => env
    updateEnv env' rest

/-- The non-namespace attributes, as lxml stores them on the element. -/
def plainAttrs (rawAttrs : List (List Char × List Char)) : List (String × String) :=
  (rawAttrs.filter fun a => !isXmlnsDefault a.1 && (xmlnsAbbrev a.1).isNone).map
    fun a => (String.mk a.1, String.mk a.2)

/-- Decode one entity reference (input begins after the ampersand). -/
def parseEntity : List Char → Except PyError (Char × List Char)
  | 'a' :: 'm' :: 'p' :: ';' :: rest => .ok ('&', rest)
  | 'l' :: 't' :: ';' :: rest => .ok ('<', rest)
  | 'g' :: 't' :: ';' :: rest => .ok ('>', rest)
  | 'q' :: 'u' :: 'o' :: 't' :: ';' :: rest => .ok ('"', rest)
  | 'a' :: 'p' :: 'o' :: 's' :: ';' :: rest => .ok ('\'', rest)
  | _ => .error (.xmlSyntaxError "invalid entity reference")

/-- Character data up to (not consuming) the stop character, decoding
    entities; fuel bounds the recursion. -/
def scanText (stop : Char) : Nat → List Char → Except PyError (List Char × List Char)
  | 0, _ => .error (.xmlSyntaxError "internal: out of fuel")
  | _ + 1, [] => .ok ([], [])
  | f + 1, c :: rest =>
    if c = stop then .ok ([], c :: rest)
    else if c = '&' then
      match parseEntity rest with
      | .error e => .error e
      | .ok (ch, rest') =>
        match scanText stop f rest' with
        | .error e => .error e
        | .ok (txt, rem) => .ok (ch :: txt, rem)
    else
      match scanText stop f rest with
      | .error e => .error e
      | .ok (txt, rem) => .ok (c :: txt, rem)

/-- Parse the attribute region of an open tag, stopping before `>` or `/`. -/
def parseAttrList : Nat → List Char → Except PyError (List (List Char × List Char) × List Char)
  | 0, _ => .error (.xmlSyntaxError "internal: out of fuel")
  | f + 1, input =>
    match skipWs input with
    | [] => .error (.xmlSyntaxError "unclosed tag")
    | c :: rest =>
      if c = '>' || c = '/' then .ok ([], c :: rest)
      else
        let nm := (c :: rest).takeWhile isNameChar
        let r1 := (c :: rest).dropWhile isNameChar
        if nm.isEmpty then .error (.xmlSyntaxError "attribute name expected")
        else
          match skipWs r1 with
          | '=' :: r2 =>
            match skipWs r2 with
            | '"' :: r3 =>
              (match scanText '"' f r3 with
              | .error e => .error e
              | .ok (v, r4) =>
                match r4 with
                | '"' :: r5 =>
                  (match parseAttrList f r5 with
                  | .error e => .error e
                  | .ok (rest', rem) => .ok ((nm, v) :: rest', rem))
                | _ => .error (.xmlSyntaxError "unterminated attribute value"))
            | '\'' :: r3 =>
              (match scanText '\'' f r3 with
              | .error e => .error e
              | .ok (v, r4) =>
                match r4 with
                | '\'' :: r5 =>
                  (match parseAttrList f r5 with
                  | .error e => .error e
                  | .ok (rest', rem) => .ok ((nm, v) :: rest', rem))
                | _ => .error (.xmlSyntaxError "unterminated attribute value"))
            | _ => .error (.xmlSyntaxError "attribute value expected")
          | _ => .error (.xmlSyntaxError "equals sign expected")

mutual
/-- Parse one element (input must begin with `<`). -/
def parseElem : Nat → NsEnv → List Char → Except PyError (Xml × List Char)
  | 0, _, _ => .error (.xmlSyntaxError "internal: out of fuel")
  | f + 1, env, input =>
    match input with
    | '<' :: rest =>
      let nm := rest.takeWhile isNameChar
      let r1 := rest.dropWhile isNameChar
      if nm.isEmpty then .error (.xmlSyntaxError "tag name expected")
      else
        match parseAttrList f r1 with
        | .error e => .error e
        | .ok (rawAttrs, r2) =>
          let env' := updateEnv env rawAttrs
          match resolveRaw env' nm with
          | .error e => .error e
          | .ok tag =>
            match r2 with
            | '/' :: '>' :: r3 => .ok (.elem tag (plainAttrs rawAttrs) none [], r3)
            | '>' :: r3 =>
              (match scanText '<' f r3 with
              | .error e => .error e
              | .ok (txt, r4) =>
                match parseKids f env' r4 with
                | .error e => .error e
                | .ok (cs, r5) =>
                  match r5 with
                  | '<' :: '/' :: r6 =>
                    let cnm := r6.takeWhile isNameChar
                    let r7 := r6.dropWhile isNameChar
                    if cnm = nm then
                      match skipWs r7 with
                      | '>' :: r8 =>
                        .ok (.elem tag (plainAttrs rawAttrs)
                              (if txt.isEmpty then none else some (String.mk txt)) cs, r8)
                      | _ => .error (.xmlSyntaxError "malformed closing tag")
                    else .error (.xmlSyntaxError "mismatched closing tag")
                  | _ => .error (.xmlSyntaxError "closing tag expected"))
            | _ => .error (.xmlSyntaxError "malformed open tag")
    | _ => .error (.xmlSyntaxError "element expected")

/-- Parse sibling elements until a closing tag begins; whitespace between
    siblings is skipped (tails are not modelled, non-blank tails are outside
    the sub-model). -/
def parseKids : Nat → NsEnv → List Char → Except PyError (List Xml × List Char)
  | 0, _, _ => .error (.xmlSyntaxError "internal: out of fuel")
  | f + 1, env, input =>
    match input with
    | '<' :: '/' :: rest => .ok ([], '<' :: '/' :: rest)
    | '<' :: rest =>
      (match parseElem f env ('<' :: rest) with
      | .error e => .error e
      | .ok (x, r1) =>
        match scanText '<' f r1 with
        | .error e => .error e
        | .ok (tl, r2) =>
          if tl.all isWsChar then
            match parseKids f env r2 with
            | .error e => .error e
            | .ok (xs, rem) => .ok (x :: xs, rem)
          else .error (.xmlSyntaxError "mixed content not modelled"))
    | _ => .error (.xmlSyntaxError "closing tag expected")
end

/-- Skip an XML declaration `<?...?>`. -/
def dropAfterDeclEnd : Nat → List Char → Except PyError (List Char)
  | 0, _ => .error (.xmlSyntaxError "internal: out of fuel")
  | f + 1, input =>
    match input with
    | '?' :: '>' :: rest => .ok rest
    | _ :: rest => dropAfterDeclEnd f rest
    | [] => .error (.xmlSyntaxError "unterminated XML declaration")

/-- `etree.XML` on a (decoded) byte string: optional XML declaration, one
    root element, trailing whitespace only. -/
def etreeXML (s : String) : Except PyError Xml :=
  match (if s.toList.take 2 = ['<', '?']
         then dropAfterDeclEnd (s.toList.length + 1) (s.toList.drop 2)
         else .ok s.toList) with
  | .error e => .error e
  | .ok body =>
    match parseElem (s.toList.length + 1) emptyEnv (skipWs body) with
    | .error e => .error e
    | .ok (x, rest) =>
      if (skipWs rest).isEmpty then .ok x
      else .error (.xmlSyntaxError "Extra content at the end of the document")

/-! ### The serializable sub-model

The round-trip claim is settled for element trees within what the
serializer model covers: tags in the two declared namespaces or in none,
ASCII name characters, attribute values without control characters, text
neither empty (lxml serializes empty text like absent text) nor holding
control characters.  This is the shape of every tree the module and its
callers build with the two `ElementMaker`s. -/

/-- A usable local name: non-empty name characters, no colon. -/
def validLoc (s : String) : Bool :=
  s ≠ "" && s.toList.all fun c => isNameChar c && c ≠ ':'

/-- A usable attribute name: a local name that declares no namespace. -/
def validAttrName (s : String) : Bool := validLoc s && s ≠ "xmlns"

/-- A usable attribute value: no control characters. -/
def validAttrVal (s : String) : Bool := s.toList.all fun c => 32 ≤ c.toNat

/-- Usable element text: non-empty, no control characters beyond
    newline and tab. -/
def validText (s : String) : Bool :=
  s ≠ "" && s.toList.all fun c => 32 ≤ c.toNat || c = '\n' || c = '\t'

/-- A namespace the fixed nsmap of the serializer declares. -/
def knownNs : Option String → Bool
  | none => true
  | some u => u = SOAP_NS || u = TYPE_NS

mutual
/-- The tree lies inside the serializable sub-model. -/
def printableE : Xml → Bool
  | .elem t a tx cs =>
    knownNs t.ns && validLoc t.loc
      && (a.all fun kv => validAttrName kv.1 && validAttrVal kv.2)
      && (match tx with
          | none => true
          | some s => validText s)
      && printableL cs

/-- Every tree of the forest lies inside the serializable sub-model. -/
def printableL : List Xml → Bool
  | [] => true
  | c :: cs => printableE c && printableL cs
end

/-- The namespace bindings under which the serializer's output is read
    back: no default namespace, `s` and `t` bound as the fixed nsmap does. -/
def goodEnv (env : NsEnv) : Prop :=
  env.dflt = none
    ∧ List.lookup "s" env.abbrevs = some SOAP_NS
    ∧ List.lookup "t" env.abbrevs = some TYPE_NS

/-! ### Response parsing and fault detection -/

/-- The text encodings exercised here. -/
inductive Encoding where
  | utf8
  | ascii
deriving DecidableEq, Repr

/-- `response.encode(encoding)`: bytes are modelled by the decoded character
    sequence, so a successful encode is the identity; the ascii codec
    raises UnicodeEncodeError on a character above U+007F. -/
def pyEncode (enc : Encoding) (s : String) : Except PyError String :=
  match enc with
  | .utf8 => .ok s
  | .ascii =>
    if s.toList.all (fun c => c.toNat < 128) then .ok s
    else .error (.unicodeEncodeError ("ascii codec cannot encode character in " ++ s))

mutual
/-- Preorder (document-order) traversal: the node and all descendants. -/
def descOrSelf : Xml → List Xml
  | .elem t a tx cs => .elem t a tx cs :: descL cs

/-- Preorder traversal of a forest. -/
def descL : List Xml → List Xml
  | [] => []
  | c :: cs => descOrSelf c ++ descL cs
end

/-- Does this element match the xpath step `s:Fault`? -/
def isFaultNode (x : Xml) : Bool := x.tag = ⟨some SOAP_NS, "Fault"⟩

/-- `xml_tree.xpath('//s:Fault', namespaces=SOAP_NAMESPACES)`: every
    matching element anywhere in the document, in document order. -/
def faultNodes (tree : Xml) : List Xml := (descOrSelf tree).filter isFaultNode

/-- `ExchangeServiceSOAP._check_for_SOAP_fault`. -/
def _check_for_SOAP_fault (xml_tree : Xml) : Except PyError Unit :=
  match faultNodes xml_tree with
  | [] => .ok ()
  | fault :: _ =>
    .error (.failedExchangeException "SOAP Fault from Exchange server" (some fault.text))

/-- `ExchangeServiceSOAP._check_for_errors`. -/
def _check_for_errors (xml_tree : Xml) : Except PyError Unit :=
  _check_for_SOAP_fault xml_tree

/-- `ExchangeServiceSOAP._parse`: encode then parse inside a try block whose
    except clause catches only `etree.XMLSyntaxError` and `TypeError`; then
    check for faults and return the tree. -/
def _parse (response : String) (encoding : Encoding) : Except PyError Xml :=
  match (match pyEncode encoding response with
         | .error e => (.error e : Except PyError Xml)
         | .ok b => etreeXML b) with
  | .error (.xmlSyntaxError m) =>
    .error (.failedExchangeException
      ("Unable to parse response from Exchange - check your login information. Error: " ++ m) none)
  | .error (.typeError m) =>
    .error (.failedExchangeException
      ("Unable to parse response from Exchange - check your login information. Error: " ++ m) none)
  | .error e => .error e
  | .ok tree =>
    match _check_for_errors tree with
    | .error e => .error e
    | .ok _ => .ok tree

/-- The serialized form of one raw attribute. -/
def printRawAttr (p : List Char × List Char) : List Char :=
  ' ' :: (p.1 ++ '=' :: '"' :: (escAttr p.2 ++ ['"']))

/-- The serialized form of a raw attribute list. -/
def printRawAttrs (l : List (List Char × List Char)) : List Char :=
  l.flatMap printRawAttr

/-- The spec's words, as a predicate: a text in the fixed format
`YYYY-MM-DDTHH:MM:SSZ` (exactly twenty characters, digits in the date and
time positions, literal dashes, colons, `T` and `Z`). -/
def specFixedTimestampShape (s : String) : Bool :=
  match s.toList with
  | [a, b, c, d, '-', e, f, '-', g, h, 'T', i, j, ':', k, l, ':', m, n, 'Z'] =>
    a.isDigit && b.isDigit && c.isDigit && d.isDigit && e.isDigit && f.isDigit &&
    g.isDigit && h.isDigit && i.isDigit && j.isDigit && k.isDigit && l.isDigit &&
    m.isDigit && n.isDigit
  | _ => false

/-! ## Auxiliary lemmas -/

/-- Induction over an element and all its descendants. -/
theorem Xml.inductionOn {P : Xml → Prop}
    (h : ∀ t a tx cs, (∀ c ∈ cs, P c) → P (Xml.elem t a tx cs)) : ∀ x, P x
  | .elem t a tx cs => by
    refine h t a tx cs ?_
    intro c hc
    have hlt : sizeOf c < sizeOf (Xml.elem t a tx cs) := by
      have := List.sizeOf_lt_of_mem hc
      simp only [Xml.elem.sizeOf_spec]
      omega
    exact Xml.inductionOn h c
termination_by x => sizeOf x

/-- `datetime` range validation only ever raises ValueError. -/
theorem mkDatetimeChecked_error (f : RawFields) (e : PyError)
    (h : mkDatetimeChecked f = .error e) : ∃ m, e = .valueError m := by
  unfold mkDatetimeChecked at h
  split at h
  · exact ⟨_, by cases h; rfl⟩
  · split at h
    · exact ⟨_, by cases h; rfl⟩
    · cases h

/-- Every failure of the strptime model is a ValueError. -/
theorem strptime_error (s fmt : String) (e : PyError)
    (h : strptime s fmt = .error e) : ∃ m, e = .valueError m := by
  unfold strptime at h
  split at h
  · exact ⟨_, by cases h; rfl⟩
  · split at h
    · exact ⟨_, by cases h; rfl⟩
    · exact mkDatetimeChecked_error _ e h
    · exact ⟨_, by cases h; rfl⟩

section LookupLemmas

variable {β : Type}

/-- Looking up the key just bound finds its value. -/
theorem lookup_cons_self (k : String) (v : β) (l : List (String × β)) :
    List.lookup k ((k, v) :: l) = some v := by
  simp [List.lookup]

/-- Looking up a different key skips the head binding. -/
theorem lookup_cons_ne (k k2 : String) (h : k ≠ k2) (v : β) (l : List (String × β)) :
    List.lookup k ((k2, v) :: l) = List.lookup k l := by
  have hb : (k == k2) = false := beq_eq_false_iff_ne.mpr h
  simp [List.lookup, hb]

/-- A key bound nowhere looks up to nothing. -/
theorem lookup_eq_none (k : String) (l : List (String × β)) (h : k ∉ l.map Prod.fst) :
    List.lookup k l = none := by
  induction l with
  | nil => rfl
  | cons hd tl ih =>
    obtain ⟨k2, v⟩ := hd
    have h1 : k ≠ k2 := by
      intro he
      exact h (by simp [he])
    rw [lookup_cons_ne k k2 h1]
    exact ih (fun hm => h (by simp only [List.map_cons, List.mem_cons]; exact .inr hm))

end LookupLemmas

/-- Keys of a successful extraction result all come from the property map. -/
theorem xtd_keys (e : Xml) (ns : List (String × String)) :
    ∀ (pm : List (String × FieldSpec)) (r : List (String × ResultVal)),
      _xpath_to_dict e pm ns = .ok r → ∀ kv ∈ r, kv.1 ∈ pm.map Prod.fst := by
  intro pm
  induction pm with
  | nil =>
    intro r hok kv hin
    simp only [_xpath_to_dict] at hok
    cases hok
    cases hin
  | cons hd tl ih =>
    obtain ⟨k0, s0⟩ := hd
    intro r hok kv hin
    simp only [_xpath_to_dict] at hok
    split at hok
    · cases hok
    · next nodes hev =>
      by_cases hne : nodes.isEmpty
      · rw [if_pos hne] at hok
        exact List.mem_cons_of_mem _ (ih r hok kv hin)
      · rw [if_neg hne] at hok
        split at hok
        · cases hok
        · next vals hco =>
          split at hok
          · cases hok
          · next restR hrest =>
            cases hok
            rcases List.mem_cons.mp hin with h1 | h1
            · simp [h1]
            · exact List.mem_cons_of_mem _ (ih restR hrest kv h1)

/-- What a successful extraction binds each listed field to: nothing when
its path matched no node, else the collapse of the coerced values. -/
theorem xtd_field (e : Xml) (ns : List (String × String)) :
    ∀ (pm : List (String × FieldSpec)) (r : List (String × ResultVal))
      (key : String) (spec : FieldSpec),
      (pm.map Prod.fst).Nodup →
      _xpath_to_dict e pm ns = .ok r →
      (key, spec) ∈ pm →
      ∃ nodes, xpathEval e spec.xpath ns = .ok nodes ∧
        ((nodes = [] ∧ List.lookup key r = none) ∨
         (nodes ≠ [] ∧ ∃ vals, coerceAll spec.cast nodes = .ok vals ∧
            List.lookup key r = some (collapse vals))) := by
  intro pm
  induction pm with
  | nil => intro r key spec _ _ hmem; cases hmem
  | cons hd tl ih =>
    obtain ⟨k0, s0⟩ := hd
    intro r key spec hnd hok hmem
    have hk0 : k0 ∉ tl.map Prod.fst := by
      simp only [List.map_cons, List.nodup_cons] at hnd
      exact hnd.1
    have hnd2 : (tl.map Prod.fst).Nodup := by
      simp only [List.map_cons, List.nodup_cons] at hnd
      exact hnd.2
    simp only [_xpath_to_dict] at hok
    split at hok
    · cases hok
    · next nodes hev =>
      by_cases hne : nodes.isEmpty
      · rw [if_pos hne] at hok
        have hnil : nodes = [] := by
          cases nodes with
          | nil => rfl
          | cons a b => cases hne
        rcases List.mem_cons.mp hmem with hhd | htl
        · obtain ⟨rfl, rfl⟩ : key = k0 ∧ spec = s0 := by
            injection hhd with h1 h2
            exact ⟨h1, h2⟩
          refine ⟨nodes, hev, .inl ⟨hnil, lookup_eq_none _ _ ?_⟩⟩
          intro hkr
          rcases List.mem_map.mp hkr with ⟨kv, hkv, hfst⟩
          exact hk0 (hfst ▸ xtd_keys e ns tl r hok kv hkv)
        · exact ih r key spec hnd2 hok htl
      · rw [if_neg hne] at hok
        split at hok
        · cases hok
        · next vals hco =>
          split at hok
          · cases hok
          · next restR hrest =>
            cases hok
            rcases List.mem_cons.mp hmem with hhd | htl
            · obtain ⟨rfl, rfl⟩ : key = k0 ∧ spec = s0 := by
                injection hhd with h1 h2
                exact ⟨h1, h2⟩
              have hnn : nodes ≠ [] := by
                intro hn
                rw [hn] at hne
                exact hne rfl
              exact ⟨nodes, hev, .inr ⟨hnn, vals, hco, lookup_cons_self key _ _⟩⟩
            · have hkne : key ≠ k0 := by
                intro he
                exact hk0 (he ▸ List.mem_map_of_mem Prod.fst htl)
              obtain ⟨nodes2, hev2, hcase⟩ := ih restR key spec hnd2 hrest htl
              refine ⟨nodes2, hev2, ?_⟩
              rw [lookup_cons_ne key k0 hkne]
              exact hcase

/-- A coerced-value list is exactly as long as the matched node list. -/
theorem coerceAll_length (castAs : Option String) :
    ∀ (nodes : List Xml) (vals : List Value),
      coerceAll castAs nodes = .ok vals → vals.length = nodes.length := by
  intro nodes
  induction nodes with
  | nil =>
    intro vals h
    simp only [coerceAll] at h
    cases h
    rfl
  | cons n ns ih =>
    intro vals h
    simp only [coerceAll] at h
    split at h
    · cases h
    · split at h
      · cases h
      · next vs hvs =>
        cases h
        simp [ih vs hvs]

/-- Collapsing a non-empty value list never yields the explicit null. -/
theorem collapse_ne_null (vals : List Value) (h : vals ≠ []) :
    collapse vals ≠ ResultVal.nullVal := by
  cases vals with
  | nil => exact absurd rfl h
  | cons v vs =>
    cases vs with
    | nil => simp [collapse]
    | cons w ws => simp [collapse]

/-! ## Claim C1 -/

/-- C1: for a property map without repeated keys, a successful extraction
binds a field name exactly when its path matched at least one node: zero
matches leave the key entirely absent (`lookup` is `none`, not a null
binding), one coerced value is stored as a bare scalar, and two or more
are stored as the ordered list of the coerced values (`coerceAll` walks
the matched nodes in document order). -/
theorem C1_extraction_shape (e : Xml) (pm : List (String × FieldSpec))
    (ns : List (String × String)) (r : List (String × ResultVal))
    (key : String) (spec : FieldSpec) (nodes : List Xml)
    (hnd : (pm.map Prod.fst).Nodup)
    (hok : _xpath_to_dict e pm ns = .ok r)
    (hmem : (key, spec) ∈ pm)
    (heval : xpathEval e spec.xpath ns = .ok nodes) :
    (nodes = [] → List.lookup key r = none)
    ∧ (nodes ≠ [] → ∃ rv, List.lookup key r = some rv)
    ∧ (∀ vals, coerceAll spec.cast nodes = .ok vals →
        (∀ v, vals = [v] → List.lookup key r = some (.single v))
        ∧ (2 ≤ vals.length → List.lookup key r = some (.multiple vals))) := by
  obtain ⟨nodes0, hev0, hcase⟩ := xtd_field e ns pm r key spec hnd hok hmem
  have heq : nodes0 = nodes := by
    rw [heval] at hev0
    cases hev0
    rfl
  subst heq
  refine ⟨?_, ?_, ?_⟩
  · intro hnil
    rcases hcase with ⟨_, hlk⟩ | ⟨hnn, _⟩
    · exact hlk
    · exact absurd hnil hnn
  · intro hnn
    rcases hcase with ⟨hnil, _⟩ | ⟨_, vals, _, hlk⟩
    · exact absurd hnil hnn
    · exact ⟨collapse vals, hlk⟩
  · intro vals hco
    rcases hcase with ⟨hnil, hlk⟩ | ⟨hnn, vals0, hco0, hlk⟩
    · subst hnil
      simp only [coerceAll] at hco
      cases hco
      refine ⟨?_, ?_⟩
      · intro v hv
        cases hv
      · intro h2
        simp at h2
    · have heqv : vals0 = vals := by
        rw [hco] at hco0
        cases hco0
        rfl
      subst heqv
      constructor
      · intro v hv
        subst hv
        simpa [collapse] using hlk
      · intro h2
        have hshape : collapse vals0 = ResultVal.multiple vals0 := by
          cases vals0 with
          | nil => simp at h2
          | cons a t =>
            cases t with
            | nil => simp at h2
            | cons b u => simp [collapse]
        rw [hshape] at hlk
        exact hlk

/-- Witness for C1 at a concrete document and property map: a zero-match
field is absent from the result, and a two-match integer field is bound to
the ordered two-element list. -/
theorem C1_extraction_shape_witness :
    List.lookup "zip"
      [("name", ResultVal.single (.vStr "Alice")), ("nums", ResultVal.multiple [.vInt 1, .vInt 2])]
      = none
    ∧ List.lookup "nums"
      [("name", ResultVal.single (.vStr "Alice")), ("nums", ResultVal.multiple [.vInt 1, .vInt 2])]
      = some (.multiple [.vInt 1, .vInt 2]) := by
  have h1 := C1_extraction_shape
    (Xml.elem ⟨none, "r"⟩ [] none
      [Xml.elem ⟨none, "Name"⟩ [] (some "Alice") [],
       Xml.elem ⟨none, "N"⟩ [] (some "1") [],
       Xml.elem ⟨none, "N"⟩ [] (some "2") []])
    [("name", ⟨[⟨none, "Name"⟩], none⟩), ("nums", ⟨[⟨none, "N"⟩], some "int"⟩),
     ("zip", ⟨[⟨none, "Zip"⟩], none⟩)]
    []
    [("name", ResultVal.single (.vStr "Alice")), ("nums", ResultVal.multiple [.vInt 1, .vInt 2])]
    "zip" ⟨[⟨none, "Zip"⟩], none⟩ []
    (by decide) (by rfl) (by decide) (by rfl)
  have h2 := C1_extraction_shape
    (Xml.elem ⟨none, "r"⟩ [] none
      [Xml.elem ⟨none, "Name"⟩ [] (some "Alice") [],
       Xml.elem ⟨none, "N"⟩ [] (some "1") [],
       Xml.elem ⟨none, "N"⟩ [] (some "2") []])
    [("name", ⟨[⟨none, "Name"⟩], none⟩), ("nums", ⟨[⟨none, "N"⟩], some "int"⟩),
     ("zip", ⟨[⟨none, "Zip"⟩], none⟩)]
    []
    [("name", ResultVal.single (.vStr "Alice")), ("nums", ResultVal.multiple [.vInt 1, .vInt 2])]
    "nums" ⟨[⟨none, "N"⟩], some "int"⟩
    [Xml.elem ⟨none, "N"⟩ [] (some "1") [], Xml.elem ⟨none, "N"⟩ [] (some "2") []]
    (by decide) (by rfl) (by decide) (by rfl)
  exact ⟨h1.1 rfl, ((h2.2.2 [.vInt 1, .vInt 2] (by rfl)).2 (by decide))⟩

/-! ## Claim C10 -/

/-- C10: on every successful extraction no key is bound to the explicit
null (the matched-but-no-coerced-value branch is unreachable), because
every matched node that coerces at all yields exactly one value: a
successful `coerceAll` returns exactly one value per node. -/
theorem C10_null_branch_unreachable :
    (∀ (e : Xml) (pm : List (String × FieldSpec)) (ns : List (String × String))
        (r : List (String × ResultVal)),
      _xpath_to_dict e pm ns = .ok r → ∀ kv ∈ r, kv.2 ≠ ResultVal.nullVal)
    ∧ (∀ (castAs : Option String) (nodes : List Xml) (vals : List Value),
        coerceAll castAs nodes = .ok vals → vals.length = nodes.length) := by
  constructor
  · intro e pm ns
    induction pm with
    | nil =>
      intro r hok kv hin
      simp only [_xpath_to_dict] at hok
      cases hok
      cases hin
    | cons hd tl ih =>
      obtain ⟨k0, s0⟩ := hd
      intro r hok kv hin
      simp only [_xpath_to_dict] at hok
      split at hok
      · cases hok
      · next nodes hev =>
        by_cases hne : nodes.isEmpty
        · rw [if_pos hne] at hok
          exact ih r hok kv hin
        · rw [if_neg hne] at hok
          split at hok
          · cases hok
          · next vals hco =>
            split at hok
            · cases hok
            · next restR hrest =>
              cases hok
              rcases List.mem_cons.mp hin with h1 | h1
              · subst h1
                have hnn : nodes ≠ [] := by
                  intro hn
                  rw [hn] at hne
                  exact hne rfl
                have hlen := coerceAll_length s0.cast nodes vals hco
                have hvn : vals ≠ [] := by
                  intro hv
                  rw [hv] at hlen
                  cases nodes with
                  | nil => exact hnn rfl
                  | cons a b => cases hlen
                exact collapse_ne_null vals hvn
              · exact ih restR hrest kv h1
  · exact coerceAll_length

/-- Witness for C10 at a concrete extraction: the two-match field is bound
to a list, and no key of the result is bound to null. -/
theorem C10_null_branch_unreachable_witness :
    (∀ kv ∈ [("nums", ResultVal.multiple [Value.vInt 1, Value.vInt 2])],
        (kv : String × ResultVal).2 ≠ ResultVal.nullVal)
    ∧ [Value.vInt 1, Value.vInt 2].length
        = [Xml.elem ⟨none, "N"⟩ [] (some "1") [], Xml.elem ⟨none, "N"⟩ [] (some "2") []].length :=
  ⟨C10_null_branch_unreachable.1
      (Xml.elem ⟨none, "r"⟩ [] none
        [Xml.elem ⟨none, "N"⟩ [] (some "1") [], Xml.elem ⟨none, "N"⟩ [] (some "2") []])
      [("nums", ⟨[⟨none, "N"⟩], some "int"⟩)] []
      [("nums", ResultVal.multiple [Value.vInt 1, Value.vInt 2])] (by rfl),
   C10_null_branch_unreachable.2 (some "int")
      [Xml.elem ⟨none, "N"⟩ [] (some "1") [], Xml.elem ⟨none, "N"⟩ [] (some "2") []]
      [Value.vInt 1, Value.vInt 2] (by rfl)⟩

/-! ## Claim C3 -/

/-- C3 counterexample: two extractions that differ only in the field name
("foo" against "bar") fail with the SAME error value — the bare ValueError
of `int()`, naming the raw text but not the field — so the error raised on
a coercion failure cannot identify the field name, against the claim
(the code wraps the coercion in no try/except and defines no CoercionError;
the standard-library exception propagates as is). -/
theorem C3_counterexample :
    _xpath_to_dict (Xml.elem ⟨none, "r"⟩ [] none [Xml.elem ⟨none, "Num"⟩ [] (some "abc") []])
        [("foo", ⟨[⟨none, "Num"⟩], some "int"⟩)] []
      = .error (.valueError "invalid literal for int() with base 10: abc")
    ∧ _xpath_to_dict (Xml.elem ⟨none, "r"⟩ [] none [Xml.elem ⟨none, "Num"⟩ [] (some "abc") []])
        [("bar", ⟨[⟨none, "Num"⟩], some "int"⟩)] []
      = .error (.valueError "invalid literal for int() with base 10: abc")
    ∧ "foo" ≠ "bar" :=
  ⟨rfl, rfl, by decide⟩

/-- C3 amended: a coercion failure on any listed field aborts the whole
extraction call with an error (no partial result is returned), and the
integer cast's failure is the standard library's ValueError carrying the
raw text (the field name appears in no error). -/
theorem C3_all_or_nothing_amended :
    (∀ (e : Xml) (pm : List (String × FieldSpec)) (ns : List (String × String))
        (key : String) (spec : FieldSpec) (nodes : List Xml) (err : PyError),
      (key, spec) ∈ pm →
      xpathEval e spec.xpath ns = .ok nodes →
      coerceAll spec.cast nodes = .error err →
      ∃ err2, _xpath_to_dict e pm ns = .error err2)
    ∧ (∀ (s : String) (err : PyError), pyIntOfString s = .error err →
        err = .valueError ("invalid literal for int() with base 10: " ++ s)) := by
  constructor
  · intro e pm ns key spec nodes err hmem heval herr
    induction pm with
    | nil => cases hmem
    | cons hd tl ih =>
      obtain ⟨k0, s0⟩ := hd
      simp only [_xpath_to_dict]
      cases hev0 : xpathEval e s0.xpath ns with
      | error e0 => exact ⟨e0, rfl⟩
      | ok nodes0 =>
        rcases List.mem_cons.mp hmem with hhd | htl
        · obtain ⟨rfl, rfl⟩ : key = k0 ∧ spec = s0 := by
            injection hhd with h1 h2
            exact ⟨h1, h2⟩
          have heq : nodes0 = nodes := by
            rw [heval] at hev0
            cases hev0
            rfl
          subst heq
          have hne : nodes0.isEmpty = false := by
            cases nodes0 with
            | nil =>
              simp only [coerceAll] at herr
              cases herr
            | cons a b => rfl
          exact ⟨err, by simp [hne, herr]⟩
        · by_cases hne : nodes0.isEmpty
          · obtain ⟨err2, h2⟩ := ih htl
            exact ⟨err2, by simp [hne, h2]⟩
          · cases hco : coerceAll s0.cast nodes0 with
            | error e0 =>
              have hne2 : nodes0.isEmpty = false := by
                cases hb : nodes0.isEmpty
                · rfl
                · exact absurd hb hne
              exact ⟨e0, by simp [hne2, hco]⟩
            | ok vals =>
              obtain ⟨err2, h2⟩ := ih htl
              have hne2 : nodes0.isEmpty = false := by
                cases hb : nodes0.isEmpty
                · rfl
                · exact absurd hb hne
              exact ⟨err2, by simp [hne2, hco, h2]⟩
  · intro s err h
    unfold pyIntOfString at h
    split at h
    · cases h
    · cases h
      rfl

/-- Witness for C3's amended theorem: the non-numeric field "foo" makes the
whole call fail, and the integer-cast error names the raw text. -/
theorem C3_all_or_nothing_amended_witness :
    (∃ err2, _xpath_to_dict
        (Xml.elem ⟨none, "r"⟩ [] none [Xml.elem ⟨none, "Num"⟩ [] (some "abc") []])
        [("ok", ⟨[⟨none, "r"⟩], none⟩), ("foo", ⟨[⟨none, "Num"⟩], some "int"⟩)] []
      = .error err2)
    ∧ PyError.valueError "invalid literal for int() with base 10: abc"
        = .valueError ("invalid literal for int() with base 10: " ++ "abc") :=
  ⟨C3_all_or_nothing_amended.1
      (Xml.elem ⟨none, "r"⟩ [] none [Xml.elem ⟨none, "Num"⟩ [] (some "abc") []])
      [("ok", ⟨[⟨none, "r"⟩], none⟩), ("foo", ⟨[⟨none, "Num"⟩], some "int"⟩)] []
      "foo" ⟨[⟨none, "Num"⟩], some "int"⟩
      [Xml.elem ⟨none, "Num"⟩ [] (some "abc") []]
      (.valueError "invalid literal for int() with base 10: abc")
      (by decide) (by rfl) (by rfl),
   C3_all_or_nothing_amended.2 "abc"
      (.valueError "invalid literal for int() with base 10: abc") (by rfl)⟩

/-! ## Claim C5 -/

/-- C5 (code_bug evidence): evaluating the availability header the code
builds: it carries the version marker and a TimeZoneContext, its Periods
hold a Standard and a Daylight bias period, but it contains exactly ONE
TransitionsGroup element (the claim — like the function's own docstring —
describes two transition groups), and its top-level transition list sends
both transitions to group "0", the absolute one dated 2015-03-01.  The
subtree is the constant `user_availability_header`, selected whenever
`user_availability_req` is true, independent of the caller's body. -/
theorem C5_availability_header_evaluated :
    _exchange_header true = user_availability_header
    ∧ ((descOrSelf user_availability_header).filter
        (fun x => x.tag = ⟨some TYPE_NS, "TransitionsGroup"⟩)).length = 1
    ∧ ((descOrSelf user_availability_header).filter
        (fun x => x.tag = ⟨some TYPE_NS, "Period"⟩)).map
          (fun x => List.lookup "Name" x.attrs) = [some "Standard", some "Daylight"]
    ∧ ((descOrSelf user_availability_header).filter
        (fun x => x.tag = ⟨some TYPE_NS, "AbsoluteDateTransition"⟩)).map
          (fun x => x.children.map fun c => (c.tag.loc, c.text))
        = [[("To", some "0"), ("DateTime", some "2015-03-01T08:00:00.000Z")]] :=
  ⟨rfl, rfl, rfl, rfl⟩

/-! ## Claim C9 -/

/-- C9: `_parse_date_only_naive` depends only on the first ten characters
of its input — two inputs agreeing on those parse identically — and its
result is a `PyDate`, a bare calendar date with no time and no zone. -/
theorem C9_date_only_first_ten (s1 s2 : String)
    (h : s1.toList.take 10 = s2.toList.take 10) :
    _parse_date_only_naive s1 = _parse_date_only_naive s2 := by
  unfold _parse_date_only_naive
  rw [h]

/-- Witness for C9 at concrete inputs: a full timestamp and the same date
followed by garbage parse to the same calendar date. -/
theorem C9_date_only_first_ten_witness :
    "2013-05-01T00:00:00Z".toList.take 10 = "2013-05-01 utter junk".toList.take 10
    ∧ _parse_date_only_naive "2013-05-01T00:00:00Z"
        = _parse_date_only_naive "2013-05-01 utter junk"
    ∧ _parse_date_only_naive "2013-05-01T00:00:00Z" = .ok ⟨2013, 5, 1⟩ :=
  ⟨by decide, C9_date_only_first_ten "2013-05-01T00:00:00Z" "2013-05-01 utter junk" (by decide),
   by rfl⟩

/-! ## Claim C8 -/

/-- C8 counterexample: `"2013-5-1T0:0:0Z"` deviates from the fixed format
`YYYY-MM-DDTHH:MM:SSZ` (one-digit month, day, hour, minute, second), yet
`_parse_date` accepts it: CPython strptime compiles `%m` to the regex
`1[0-2]|0[1-9]|[1-9]` and so on, so one-digit fields parse.  The claim
says every deviation from the fixed shape fails. -/
theorem C8_counterexample :
    specFixedTimestampShape "2013-5-1T0:0:0Z" = false
    ∧ _parse_date "2013-5-1T0:0:0Z" = .ok ⟨2013, 5, 1, 0, 0, 0, some Tzinfo.utc⟩ :=
  ⟨rfl, rfl⟩

/-- C8 amended: whatever text `_parse_date` accepts (the strptime reading
of the format, which also admits one-digit fields and lowercase t/z) is
returned tagged UTC — no other timezone is ever produced; every rejected
text fails with the standard library's ValueError; and the datetime cast
of the field extractor surfaces `_parse_date`'s outcome unchanged. -/
theorem C8_parse_date_amended :
    (∀ s dt, _parse_date s = .ok dt → dt.tzinfo = some Tzinfo.utc)
    ∧ (∀ s e, _parse_date s = .error e → ∃ m, e = .valueError m)
    ∧ (∀ (node : Xml) (s : String), node.text = some s →
        coerceNode (some "datetime") node = (_parse_date s).map Value.vDatetime) := by
  refine ⟨?_, ?_, ?_⟩
  · intro s dt h
    unfold _parse_date at h
    cases hs : strptime s EXCHANGE_DATE_FORMAT with
    | error e => rw [hs] at h; cases h
    | ok d => rw [hs] at h; cases h; rfl
  · intro s e h
    unfold _parse_date at h
    cases hs : strptime s EXCHANGE_DATE_FORMAT with
    | error e2 =>
      rw [hs] at h
      cases h
      exact strptime_error s EXCHANGE_DATE_FORMAT e hs
    | ok d => rw [hs] at h; cases h
  · intro node s h
    unfold coerceNode
    rw [h]
    simp

/-- Witness for C8's amended theorem at concrete inputs: the accepted lax
timestamp is tagged UTC, the rejected text fails with a ValueError, and the
datetime cast surfaces the parse result unchanged. -/
theorem C8_parse_date_amended_witness :
    (PyDatetime.mk 2013 5 1 0 0 0 (some Tzinfo.utc)).tzinfo = some Tzinfo.utc
    ∧ (∃ m, PyError.valueError
        "time data christmas does not match format %Y-%m-%dT%H:%M:%SZ" = .valueError m)
    ∧ coerceNode (some "datetime") (Xml.elem ⟨none, "D"⟩ [] (some "christmas") [])
        = (_parse_date "christmas").map Value.vDatetime :=
  ⟨C8_parse_date_amended.1 "2013-5-1T0:0:0Z" ⟨2013, 5, 1, 0, 0, 0, some Tzinfo.utc⟩ rfl,
   C8_parse_date_amended.2.1 "christmas" _ rfl,
   C8_parse_date_amended.2.2 (Xml.elem ⟨none, "D"⟩ [] (some "christmas") []) "christmas" rfl⟩

/-! ## Round-trip lemmas for the serializer and parser -/

/-- Name characters are not whitespace and none of the tag delimiters. -/
theorem nameChar_ne (c : Char) (h : isNameChar c = true) :
    isWsChar c = false ∧ c ≠ '/' ∧ c ≠ '>' ∧ c ≠ '<' ∧ c ≠ '=' ∧ c ≠ '"' ∧ c ≠ '\'' := by
  refine ⟨?_, ?_, ?_, ?_, ?_, ?_, ?_⟩
  · cases hw : isWsChar c
    · rfl
    · exfalso
      have hm : c = ' ' ∨ c = '\t' ∨ c = '\n' ∨ c = '\x0d' := by
        unfold isWsChar at hw
        have := hw
        simp at this
        tauto
      rcases hm with h1 | h1 | h1 | h1 <;> subst h1 <;> exact absurd h (by decide)
  all_goals intro h1
  all_goals subst h1
  all_goals exact absurd h (by decide)

/-- Taking name characters off a name followed by a delimiter returns the
name and the remainder. -/
theorem takeDropWhile_append (p : Char → Bool) (l1 l2 : List Char)
    (h1 : ∀ c ∈ l1, p c = true) (h2 : ∀ c t, l2 = c :: t → p c = false) :
    (l1 ++ l2).takeWhile p = l1 ∧ (l1 ++ l2).dropWhile p = l2 := by
  induction l1 with
  | nil =>
    simp only [List.nil_append]
    cases l2 with
    | nil => exact ⟨rfl, rfl⟩
    | cons c t =>
      have := h2 c t rfl
      simp [List.takeWhile_cons, List.dropWhile_cons, this]
  | cons a l1' ih =>
    have ha : p a = true := h1 a (List.mem_cons_self a l1')
    have := ih (fun c hc => h1 c (List.mem_cons_of_mem a hc))
    simp [List.takeWhile_cons, List.dropWhile_cons, ha, this.1, this.2]

/-- A colon-free raw name does not split. -/
theorem splitColon_none (l : List Char) (h : ∀ c ∈ l, c ≠ ':') : splitColon l = none := by
  induction l with
  | nil => rfl
  | cons c t ih =>
    have hc : c ≠ ':' := h c (List.mem_cons_self c t)
    have ht := ih (fun d hd => h d (List.mem_cons_of_mem c hd))
    simp [splitColon, hc, ht]

/-- `escText` one step. -/
theorem escText_cons (c : Char) (s : List Char) :
    escText (c :: s) = escTextChar c ++ escText s := rfl

/-- `escAttr` one step. -/
theorem escAttr_cons (c : Char) (s : List Char) :
    escAttr (c :: s) = escAttrChar c ++ escAttr s := rfl

/-- Scanning the escaped text back, up to the closing angle bracket,
restores the original text. -/
theorem scanText_escText : ∀ (s : List Char) (f : Nat) (rest : List Char),
    (escText s).length + 1 ≤ f →
    scanText '<' f (escText s ++ '<' :: rest) = .ok (s, '<' :: rest) := by
  intro s
  induction s with
  | nil =>
    intro f rest hf
    obtain ⟨f1, rfl⟩ : ∃ f1, f = f1 + 1 := ⟨f - 1, by omega⟩
    simp [scanText, escText]
  | cons c s' ih =>
    intro f rest hf
    rw [escText_cons] at hf ⊢
    by_cases hamp : c = '&'
    · subst hamp
      obtain ⟨f1, rfl⟩ : ∃ f1, f = f1 + 1 := ⟨f - 1, by simp [escTextChar] at hf; omega⟩
      have hb : (escText s').length + 1 ≤ f1 := by
        simp [escTextChar] at hf
        omega
      simp only [escTextChar, if_pos rfl]
      simp only [List.cons_append, List.nil_append, scanText]
      simp [parseEntity, ih f1 rest hb]
    · by_cases hlt : c = '<'
      · subst hlt
        obtain ⟨f1, rfl⟩ : ∃ f1, f = f1 + 1 := ⟨f - 1, by omega⟩
        have hb : (escText s').length + 1 ≤ f1 := by
          simp [escTextChar] at hf
          omega
        simp only [escTextChar]
        norm_num
        simp only [List.cons_append, List.nil_append, scanText]
        simp [parseEntity, ih f1 rest hb]
      · by_cases hgt : c = '>'
        · subst hgt
          obtain ⟨f1, rfl⟩ : ∃ f1, f = f1 + 1 := ⟨f - 1, by omega⟩
          have hb : (escText s').length + 1 ≤ f1 := by
            simp [escTextChar] at hf
            omega
          simp only [escTextChar]
          norm_num
          simp only [List.cons_append, List.nil_append, scanText]
          simp [parseEntity, ih f1 rest hb]
        · obtain ⟨f1, rfl⟩ : ∃ f1, f = f1 + 1 := ⟨f - 1, by omega⟩
          have hb : (escText s').length + 1 ≤ f1 := by
            simp [escTextChar, hamp, hlt, hgt] at hf
            omega
          have hone : escTextChar c = [c] := by
            simp [escTextChar, hamp, hlt, hgt]
          rw [hone]
          simp only [List.cons_append, List.nil_append, scanText]
          simp [hlt, hamp, ih f1 rest hb]

/-- Scanning the escaped attribute value back, up to the closing double
quote, restores the original value. -/
theorem scanText_escAttr : ∀ (s : List Char) (f : Nat) (rest : List Char),
    (escAttr s).length + 1 ≤ f →
    scanText '"' f (escAttr s ++ '"' :: rest) = .ok (s, '"' :: rest) := by
  intro s
  induction s with
  | nil =>
    intro f rest hf
    obtain ⟨f1, rfl⟩ : ∃ f1, f = f1 + 1 := ⟨f - 1, by omega⟩
    simp [scanText, escAttr]
  | cons c s' ih =>
    intro f rest hf
    rw [escAttr_cons] at hf ⊢
    by_cases hq : c = '"'
    · subst hq
      obtain ⟨f1, rfl⟩ : ∃ f1, f = f1 + 1 := ⟨f - 1, by omega⟩
      have hb : (escAttr s').length + 1 ≤ f1 := by
        simp [escAttrChar] at hf
        omega
      simp only [escAttrChar, if_pos rfl]
      simp only [List.cons_append, List.nil_append, scanText]
      simp [parseEntity, ih f1 rest hb]
    · by_cases hamp : c = '&'
      · subst hamp
        obtain ⟨f1, rfl⟩ : ∃ f1, f = f1 + 1 := ⟨f - 1, by omega⟩
        have hb : (escAttr s').length + 1 ≤ f1 := by
          simp [escAttrChar, escTextChar] at hf
          omega
        simp only [escAttrChar, escTextChar]
        norm_num
        simp only [List.cons_append, List.nil_append, scanText]
        simp [parseEntity, ih f1 rest hb]
      · by_cases hlt : c = '<'
        · subst hlt
          obtain ⟨f1, rfl⟩ : ∃ f1, f = f1 + 1 := ⟨f - 1, by omega⟩
          have hb : (escAttr s').length + 1 ≤ f1 := by
            simp [escAttrChar, escTextChar] at hf
            omega
          simp only [escAttrChar, escTextChar]
          norm_num
          simp only [List.cons_append, List.nil_append, scanText]
          simp [parseEntity, ih f1 rest hb]
        · by_cases hgt : c = '>'
          · subst hgt
            obtain ⟨f1, rfl⟩ : ∃ f1, f = f1 + 1 := ⟨f - 1, by omega⟩
            have hb : (escAttr s').length + 1 ≤ f1 := by
              simp [escAttrChar, escTextChar] at hf
              omega
            simp only [escAttrChar, escTextChar]
            norm_num
            simp only [List.cons_append, List.nil_append, scanText]
            simp [parseEntity, ih f1 rest hb]
          · obtain ⟨f1, rfl⟩ : ∃ f1, f = f1 + 1 := ⟨f - 1, by omega⟩
            have hb : (escAttr s').length + 1 ≤ f1 := by
              simp [escAttrChar, escTextChar, hamp, hlt, hgt, hq] at hf
              omega
            have hone : escAttrChar c = [c] := by
              simp [escAttrChar, escTextChar, hamp, hlt, hgt, hq]
            rw [hone]
            simp only [List.cons_append, List.nil_append, scanText]
            simp [hq, hamp, ih f1 rest hb]

/-- Skipping whitespace drops a leading whitespace character. -/
theorem skipWs_cons_ws (c : Char) (h : isWsChar c = true) (l : List Char) :
    skipWs (c :: l) = skipWs l := by
  simp [skipWs, List.dropWhile_cons, h]

/-- Skipping whitespace stops at a non-whitespace character. -/
theorem skipWs_cons_not (c : Char) (h : isWsChar c = false) (l : List Char) :
    skipWs (c :: l) = c :: l := by
  simp [skipWs, List.dropWhile_cons, h]

/-- The attribute serializer, one attribute at a time. -/
theorem printAttrs_eq_raw (a : List (String × String)) :
    printAttrs a = printRawAttrs (a.map fun kv => (kv.1.toList, kv.2.toList)) := by
  induction a with
  | nil => rfl
  | cons kv t ih =>
    obtain ⟨k, v⟩ := kv
    simp [printAttrs, printRawAttrs, printRawAttr, ih]

/-- Parsing the serialized raw attributes before a `>` or `/` delimiter
recovers exactly those attributes. -/
theorem parseAttrList_raw : ∀ (raws : List (List Char × List Char)) (f : Nat) (d : Char)
    (rest : List Char),
    (∀ p ∈ raws, p.1 ≠ [] ∧ ∀ c ∈ p.1, isNameChar c = true) →
    (d = '>' ∨ d = '/') →
    (printRawAttrs raws).length + 1 ≤ f →
    parseAttrList f (printRawAttrs raws ++ d :: rest) = .ok (raws, d :: rest) := by
  intro raws
  induction raws with
  | nil =>
    intro f d rest _ hd hf
    obtain ⟨f1, rfl⟩ : ∃ f1, f = f1 + 1 := ⟨f - 1, by omega⟩
    have hno : isWsChar d = false := by
      rcases hd with rfl | rfl <;> decide
    show parseAttrList (f1 + 1) ([] ++ d :: rest) = .ok ([], d :: rest)
    rw [List.nil_append]
    simp only [parseAttrList, skipWs_cons_not d hno]
    rcases hd with rfl | rfl <;> simp
  | cons p raws' ih =>
    obtain ⟨nm, v⟩ := p
    intro f d rest hval hd hf
    obtain ⟨hne, hchars⟩ := hval (nm, v) (List.mem_cons_self _ _)
    obtain ⟨c0, nm', rfl⟩ : ∃ c0 nm', nm = c0 :: nm' := by
      cases nm with
      | nil => exact absurd rfl hne
      | cons a b => exact ⟨a, b, rfl⟩
    obtain ⟨f1, rfl⟩ : ∃ f1, f = f1 + 1 := ⟨f - 1, by omega⟩
    have hc0 : isNameChar c0 = true := hchars c0 (List.mem_cons_self _ _)
    have hc0ne := nameChar_ne c0 hc0
    have hinput : printRawAttrs ((c0 :: nm', v) :: raws') ++ d :: rest
        = ' ' :: c0 :: (nm' ++ '=' :: '"' ::
            (escAttr v ++ '"' :: (printRawAttrs raws' ++ d :: rest))) := by
      simp [printRawAttrs, printRawAttr]
    rw [hinput]
    simp only [parseAttrList]
    rw [skipWs_cons_ws ' ' (by decide), skipWs_cons_not c0 hc0ne.1]
    have htake := takeDropWhile_append isNameChar (c0 :: nm')
      ('=' :: '"' :: (escAttr v ++ '"' :: (printRawAttrs raws' ++ d :: rest)))
      hchars (by intro c t hct; cases hct; decide)
    simp only [List.cons_append, List.append_assoc] at htake
    have hfalse : (c0 = '>' || c0 = '/') = false := by
      simp [hc0ne.2.2.1, hc0ne.2.1]
    simp only [hfalse, Bool.false_eq_true, if_false]
    rw [htake.1, htake.2]
    have hnm_ne : (c0 :: nm').isEmpty = false := rfl
    simp only [hnm_ne, Bool.false_eq_true, if_false]
    have hflen : (escAttr v).length + 1 ≤ f1 := by
      have : (printRawAttrs ((c0 :: nm', v) :: raws')).length
          = 1 + (c0 :: nm').length + 2 + (escAttr v).length + 1
            + (printRawAttrs raws').length := by
        simp [printRawAttrs, printRawAttr]
        omega
      omega
    have hrest : (printRawAttrs raws').length + 1 ≤ f1 := by
      have : (printRawAttrs ((c0 :: nm', v) :: raws')).length
          = 1 + (c0 :: nm').length + 2 + (escAttr v).length + 1
            + (printRawAttrs raws').length := by
        simp [printRawAttrs, printRawAttr]
        omega
      omega
    conv_lhs => whnf
    rw [scanText_escAttr v f1 (printRawAttrs raws' ++ d :: rest) hflen]
    conv_lhs => whnf
    rw [ih f1 d rest (fun q hq => hval q (List.mem_cons_of_mem _ hq)) hd hrest]

/-- A list of characters that spells the empty string is empty. -/
theorem toList_eq_nil {s : String} (h : s.toList = []) : s = "" := by
  cases s with
  | mk data =>
    cases h
    rfl

/-- The pieces of a valid local name. -/
theorem validLoc_parts (s : String) (h : validLoc s = true) :
    s.toList ≠ [] ∧ (∀ c ∈ s.toList, isNameChar c = true) ∧ ∀ c ∈ s.toList, c ≠ ':' := by
  unfold validLoc at h
  rw [Bool.and_eq_true] at h
  obtain ⟨hne, hall⟩ := h
  rw [List.all_eq_true] at hall
  refine ⟨?_, ?_, ?_⟩
  · intro hnil
    rw [toList_eq_nil hnil] at hne
    simp at hne
  · intro c hc
    have := hall c hc
    rw [Bool.and_eq_true] at this
    exact this.1
  · intro c hc
    have := hall c hc
    rw [Bool.and_eq_true] at this
    simpa using this.2

/-- The pieces of a printable element. -/
theorem printableE_parts {t : XName} {a : List (String × String)} {tx : Option String}
    {cs : List Xml} (h : printableE (.elem t a tx cs) = true) :
    knownNs t.ns = true ∧ validLoc t.loc = true
    ∧ (∀ kv ∈ a, validAttrName kv.1 = true ∧ validAttrVal kv.2 = true)
    ∧ (∀ s, tx = some s → validText s = true)
    ∧ printableL cs = true := by
  unfold printableE at h
  simp only [Bool.and_eq_true] at h
  obtain ⟨⟨⟨⟨h1, h2⟩, h3⟩, h4⟩, h5⟩ := h
  refine ⟨h1, h2, ?_, ?_, h5⟩
  · intro kv hkv
    rw [List.all_eq_true] at h3
    have := h3 kv hkv
    rwa [Bool.and_eq_true] at this
  · intro s hs
    subst hs
    exact h4

/-- Printability of a forest gives printability of each member. -/
theorem printableL_mem : ∀ {cs : List Xml}, printableL cs = true →
    ∀ c ∈ cs, printableE c = true := by
  intro cs
  induction cs with
  | nil => intro _ c hc; cases hc
  | cons a t ih =>
    intro h c hc
    unfold printableL at h
    rw [Bool.and_eq_true] at h
    rcases List.mem_cons.mp hc with rfl | hc2
    · exact h.1
    · exact ih h.2 c hc2

/-- A raw name without colons never declares a namespace abbreviation. -/
theorem xmlnsAbbrev_none (nm : List Char) (h : ∀ c ∈ nm, c ≠ ':') :
    xmlnsAbbrev nm = none := by
  unfold xmlnsAbbrev
  rw [if_neg]
  intro heq
  have hmem : ':' ∈ nm.take 6 := by
    rw [heq]
    decide
  exact h ':' (List.take_subset 6 nm hmem) rfl

/-- A raw name other than `xmlns` is not the default declaration. -/
theorem isXmlnsDefault_false (nm : List Char) (h : nm ≠ "xmlns".toList) :
    isXmlnsDefault nm = false := by
  unfold isXmlnsDefault
  simpa using h

/-- Attributes of the model neither declare namespaces nor change the
environment. -/
theorem updateEnv_no_xmlns : ∀ (raws : List (List Char × List Char)) (env : NsEnv),
    (∀ p ∈ raws, (∀ c ∈ p.1, c ≠ ':') ∧ p.1 ≠ "xmlns".toList) →
    updateEnv env raws = env := by
  intro raws
  induction raws with
  | nil => intro env _; rfl
  | cons p t ih =>
    obtain ⟨nm, v⟩ := p
    intro env h
    obtain ⟨hc, hx⟩ := h (nm, v) (List.mem_cons_self _ _)
    unfold updateEnv
    rw [isXmlnsDefault_false nm hx]
    simp only [Bool.false_eq_true, if_false, xmlnsAbbrev_none nm hc]
    exact ih env (fun q hq => h q (List.mem_cons_of_mem _ hq))

/-- Parsed model attributes re-string to the original attribute list. -/
theorem plainAttrs_of_attrs (a : List (String × String))
    (h : ∀ kv ∈ a, validAttrName kv.1 = true) :
    plainAttrs (a.map fun kv => (kv.1.toList, kv.2.toList)) = a := by
  induction a with
  | nil => rfl
  | cons kv t ih =>
    obtain ⟨k, v⟩ := kv
    have hk := h (k, v) (List.mem_cons_self _ _)
    unfold validAttrName at hk
    rw [Bool.and_eq_true] at hk
    have hloc := validLoc_parts k hk.1
    have hnx : k.toList ≠ "xmlns".toList := by
      intro he
      have : k = "xmlns" := by
        have := congrArg String.mk he
        exact this
      rw [this] at hk
      simp at hk
    unfold plainAttrs
    simp only [List.map_cons, List.filter_cons]
    rw [isXmlnsDefault_false _ hnx, xmlnsAbbrev_none _ hloc.2.2]
    simp only [Bool.not_false, Option.isNone_none, Bool.and_self, if_pos]
    have ihx := ih (fun q hq => h q (List.mem_cons_of_mem _ hq))
    unfold plainAttrs at ihx
    simp only [List.map_cons]
    rw [List.cons.injEq]
    exact ⟨rfl, ihx⟩

/-- The serialized name of an unqualified tag. -/
theorem prefName_none (loc : String) : prefName ⟨none, loc⟩ = loc.toList := rfl

/-- The serialized name of an envelope-namespace tag. -/
theorem prefName_soap (loc : String) :
    prefName ⟨some SOAP_NS, loc⟩ = 's' :: ':' :: loc.toList := rfl

/-- The serialized name of a types-namespace tag. -/
theorem prefName_type (loc : String) :
    prefName ⟨some TYPE_NS, loc⟩ = 't' :: ':' :: loc.toList := rfl

/-- The pieces of a serialized qualified name. -/
theorem prefName_parts (t : XName) (hk : knownNs t.ns = true) (hl : validLoc t.loc = true) :
    prefName t ≠ [] ∧ ∀ c ∈ prefName t, isNameChar c = true := by
  obtain ⟨hne, hnc, _⟩ := validLoc_parts t.loc hl
  cases t with
  | mk ns loc =>
    cases ns with
    | none =>
      rw [prefName_none]
      exact ⟨hne, hnc⟩
    | some u =>
      have hu : u = SOAP_NS ∨ u = TYPE_NS := by
        unfold knownNs at hk
        rw [Bool.or_eq_true] at hk
        simpa using hk
      rcases hu with rfl | rfl
      · rw [prefName_soap]
        refine ⟨by simp, ?_⟩
        intro c hc
        rcases List.mem_cons.mp hc with rfl | hc2
        · decide
        · rcases List.mem_cons.mp hc2 with rfl | hc3
          · decide
          · exact hnc c hc3
      · rw [prefName_type]
        refine ⟨by simp, ?_⟩
        intro c hc
        rcases List.mem_cons.mp hc with rfl | hc2
        · decide
        · rcases List.mem_cons.mp hc2 with rfl | hc3
          · decide
          · exact hnc c hc3

/-- Resolving the serialized qualified name against good bindings recovers
the expanded name. -/
theorem resolveRaw_prefName (env : NsEnv) (hg : goodEnv env) (t : XName)
    (hk : knownNs t.ns = true) (hl : validLoc t.loc = true) :
    resolveRaw env (prefName t) = .ok t := by
  obtain ⟨hd, hs, ht⟩ := hg
  obtain ⟨hne, hnc, hcol⟩ := validLoc_parts t.loc hl
  cases t with
  | mk ns loc =>
    cases ns with
    | none =>
      rw [prefName_none]
      unfold resolveRaw
      rw [splitColon_none _ hcol, hd]
      rfl
    | some u =>
      have hu : u = SOAP_NS ∨ u = TYPE_NS := by
        unfold knownNs at hk
        rw [Bool.or_eq_true] at hk
        simpa using hk
      rcases hu with rfl | rfl
      · rw [prefName_soap]
        unfold resolveRaw
        have hsplit : splitColon ('s' :: ':' :: loc.toList) = some (['s'], loc.toList) := by
          simp [splitColon]
        rw [hsplit]
        conv_lhs => whnf
        rw [show String.mk ['s'] = "s" from rfl, hs]
        rfl
      · rw [prefName_type]
        unfold resolveRaw
        have hsplit : splitColon ('t' :: ':' :: loc.toList) = some (['t'], loc.toList) := by
          simp [splitColon]
        rw [hsplit]
        conv_lhs => whnf
        rw [show String.mk ['t'] = "t" from rfl, ht]
        rfl

/-- The serializer's two branches, as one equation. -/
theorem printElem_eq (decls : List Char) (t : XName) (a : List (String × String))
    (tx : Option String) (cs : List Xml) :
    printElem decls (.elem t a tx cs)
      = if tx.isNone && cs.isEmpty then
          '<' :: (prefName t ++ decls ++ printAttrs a) ++ ['/', '>']
        else
          '<' :: (prefName t ++ decls ++ printAttrs a) ++ '>' ::
            ((match tx with | none => [] | some s => escText s.toList) ++
             (printKids cs ++ ('<' :: '/' :: (prefName t ++ ['>'])))) := rfl

/-- A serialized element begins with an open angle and a name character. -/
theorem printElem_head (decls : List Char) (x : Xml) (hp : printableE x = true) :
    ∃ c l, printElem decls x = '<' :: c :: l ∧ isNameChar c = true := by
  cases x with
  | elem t a tx cs =>
    have hparts := printableE_parts hp
    obtain ⟨hne, hall⟩ := prefName_parts t hparts.1 hparts.2.1
    obtain ⟨c0, nm', heq⟩ : ∃ c0 nm', prefName t = c0 :: nm' := by
      cases hpn : prefName t with
      | nil => exact absurd hpn hne
      | cons a b => exact ⟨a, b, rfl⟩
    have hc0 : isNameChar c0 = true := hall c0 (by rw [heq]; exact List.mem_cons_self _ _)
    obtain ⟨tail0, htail⟩ : ∃ tail0, printElem decls (.elem t a tx cs)
        = '<' :: ((prefName t ++ decls ++ printAttrs a) ++ tail0) := by
      rw [printElem_eq]
      split
      · exact ⟨_, rfl⟩
      · exact ⟨_, rfl⟩
    refine ⟨c0, (nm' ++ decls ++ printAttrs a) ++ tail0, ?_, hc0⟩
    rw [htail, heq]
    simp

/-- A serialized printable element spans at least four characters. -/
theorem printElem_length (decls : List Char) (x : Xml) (hp : printableE x = true) :
    4 ≤ (printElem decls x).length := by
  cases x with
  | elem t a tx cs =>
    have hparts := printableE_parts hp
    obtain ⟨hne, _⟩ := prefName_parts t hparts.1 hparts.2.1
    have h1 : 1 ≤ (prefName t).length := by
      cases hpn : prefName t with
      | nil => exact absurd hpn hne
      | cons a b => simp
    rw [printElem_eq]
    split
    · simp only [List.length_append, List.length_cons, List.length_nil]
      omega
    · simp only [List.length_append, List.length_cons, List.length_nil]
      omega

/-- After the serialized attributes comes a delimiter, never a name
character. -/
theorem attrsHead_not_name (a : List (String × String)) (d : Char)
    (hd : d = '>' ∨ d = '/') (rest : List Char) :
    ∀ c t, printAttrs a ++ d :: rest = c :: t → isNameChar c = false := by
  intro c t hct
  cases a with
  | nil =>
    rw [show printAttrs [] = [] from rfl, List.nil_append] at hct
    injection hct with h1 _
    subst h1
    rcases hd with rfl | rfl <;> decide
  | cons kv tl =>
    obtain ⟨k, v⟩ := kv
    rw [show printAttrs ((k, v) :: tl)
        = ' ' :: (k.toList ++ '=' :: '"' :: (escAttr v.toList ++ '"' :: printAttrs tl))
      from rfl] at hct
    rw [List.cons_append] at hct
    injection hct with h1 _
    subst h1
    decide

/-- Scanning at the stop character consumes nothing. -/
theorem scanText_stop (stop : Char) (f : Nat) (l : List Char) :
    scanText stop (f + 1) (stop :: l) = .ok ([], stop :: l) := by
  simp [scanText]

/-- Parsing the serialized forest before a closing tag recovers the
forest, provided each member round-trips. -/
theorem parseKids_print (cs : List Xml)
    (hall : ∀ c ∈ cs, printableE c = true)
    (hparse : ∀ c ∈ cs, ∀ (f : Nat) (env : NsEnv) (rest : List Char), goodEnv env →
        (printElem [] c).length + 1 ≤ f →
        parseElem f env (printElem [] c ++ rest) = .ok (c, rest)) :
    ∀ (f : Nat) (env : NsEnv) (rest : List Char), goodEnv env →
      (printKids cs).length + 2 ≤ f →
      parseKids f env (printKids cs ++ '<' :: '/' :: rest) = .ok (cs, '<' :: '/' :: rest) := by
  induction cs with
  | nil =>
    intro f env rest _ hf
    obtain ⟨f1, rfl⟩ : ∃ f1, f = f1 + 1 := ⟨f - 1, by omega⟩
    rfl
  | cons c cs' ih =>
    intro f env rest hg hf
    obtain ⟨f1, rfl⟩ : ∃ f1, f = f1 + 1 := ⟨f - 1, by omega⟩
    have hpc : printableE c = true := hall c (List.mem_cons_self _ _)
    obtain ⟨c0, l0, hshape, hc0⟩ := printElem_head [] c hpc
    have hc0ne : c0 ≠ '/' := (nameChar_ne c0 hc0).2.1
    have hlenc : 4 ≤ (printElem [] c).length := printElem_length [] c hpc
    have hlen : (printKids (c :: cs')).length
        = (printElem [] c).length + (printKids cs').length := by
      simp [printKids]
    have hinput : printKids (c :: cs') ++ '<' :: '/' :: rest
        = '<' :: c0 :: (l0 ++ (printKids cs' ++ '<' :: '/' :: rest)) := by
      show printElem [] c ++ printKids cs' ++ '<' :: '/' :: rest = _
      rw [hshape]
      simp
    rw [hinput]
    simp only [parseKids]
    split
    · next heq =>
      rw [List.cons.injEq, List.cons.injEq] at heq
      exact absurd heq.2.1 hc0ne
    · next r heq =>
      rw [List.cons.injEq] at heq
      obtain ⟨-, heq2⟩ := heq
      rw [← heq2]
      have hstep : parseElem f1 env ('<' :: c0 :: (l0 ++ (printKids cs' ++ '<' :: '/' :: rest)))
          = .ok (c, printKids cs' ++ '<' :: '/' :: rest) := by
        have := hparse c (List.mem_cons_self _ _) f1 env
          (printKids cs' ++ '<' :: '/' :: rest) hg (by omega)
        rw [hshape] at this
        simpa using this
      rw [hstep]
      obtain ⟨R1, hR1⟩ : ∃ R1, printKids cs' ++ '<' :: '/' :: rest = '<' :: R1 := by
        cases cs' with
        | nil => exact ⟨'/' :: rest, rfl⟩
        | cons c2 cs2 =>
          obtain ⟨c1, l1, hsh2, _⟩ := printElem_head [] c2 (hall c2 (by simp))
          refine ⟨c1 :: (l1 ++ (printKids cs2 ++ '<' :: '/' :: rest)), ?_⟩
          show printElem [] c2 ++ printKids cs2 ++ '<' :: '/' :: rest = _
          rw [hsh2]
          simp
      obtain ⟨f2, rfl⟩ : ∃ f2, f1 = f2 + 1 := ⟨f1 - 1, by omega⟩
      rw [hR1]
      conv_lhs => whnf
      rw [← hR1, ih (fun d hd => hall d (List.mem_cons_of_mem _ hd))
        (fun d hd => hparse d (List.mem_cons_of_mem _ hd)) (f2 + 1) env rest hg (by omega)]
    · next h1 h2 =>
      exact absurd rfl (h2 (c0 :: (l0 ++ (printKids cs' ++ '<' :: '/' :: rest))))

/-- Parsing a serialized printable element under good bindings recovers
the element and leaves the remainder untouched. -/
theorem parseElem_print : ∀ (x : Xml), printableE x = true →
    ∀ (f : Nat) (env : NsEnv) (rest : List Char), goodEnv env →
      (printElem [] x).length + 1 ≤ f →
      parseElem f env (printElem [] x ++ rest) = .ok (x, rest) := by
  intro x
  induction x using Xml.inductionOn with
  | h t a tx cs ihc =>
    intro hp f env rest hg hf
    obtain ⟨hkn, hvl, hattrs, htxv, hkids⟩ := printableE_parts hp
    obtain ⟨hnmne, hnmchars⟩ := prefName_parts t hkn hvl
    have hrawcond : ∀ p ∈ (a.map fun kv => (kv.1.toList, kv.2.toList)),
        p.1 ≠ [] ∧ ∀ c ∈ p.1, isNameChar c = true := by
      intro p hp2
      rcases List.mem_map.mp hp2 with ⟨kv, hkv, rfl⟩
      have hvk := (hattrs kv hkv).1
      unfold validAttrName at hvk
      rw [Bool.and_eq_true] at hvk
      obtain ⟨h1, h2, _⟩ := validLoc_parts kv.1 hvk.1
      exact ⟨h1, h2⟩
    have hrawcond2 : ∀ p ∈ (a.map fun kv => (kv.1.toList, kv.2.toList)),
        (∀ c ∈ p.1, c ≠ ':') ∧ p.1 ≠ "xmlns".toList := by
      intro p hp2
      rcases List.mem_map.mp hp2 with ⟨kv, hkv, rfl⟩
      have hvk := (hattrs kv hkv).1
      unfold validAttrName at hvk
      rw [Bool.and_eq_true] at hvk
      obtain ⟨-, -, h3⟩ := validLoc_parts kv.1 hvk.1
      refine ⟨h3, ?_⟩
      intro he
      have hx : kv.1 = "xmlns" := congrArg String.mk he
      rw [hx] at hvk
      simp at hvk
    have henv : updateEnv env (a.map fun kv => (kv.1.toList, kv.2.toList)) = env :=
      updateEnv_no_xmlns _ env hrawcond2
    have hplain : plainAttrs (a.map fun kv => (kv.1.toList, kv.2.toList)) = a :=
      plainAttrs_of_attrs a (fun kv hkv => (hattrs kv hkv).1)
    have hraweq := printAttrs_eq_raw a
    have hrawlen : (printAttrs a).length
        = (printRawAttrs (a.map fun kv => (kv.1.toList, kv.2.toList))).length :=
      congrArg List.length hraweq
    have hnmE : (prefName t).isEmpty = false := by
      cases hpn : prefName t with
      | nil => exact absurd hpn hnmne
      | cons b l => rfl
    by_cases hbr : (tx.isNone && cs.isEmpty) = true
    · -- self-closing branch: no text, no children
      rw [Bool.and_eq_true] at hbr
      have htx0 : tx = none := by
        cases tx with
        | none => rfl
        | some s => simp at hbr
      have hcs0 : cs = [] := by
        cases cs with
        | nil => rfl
        | cons b l => simp at hbr
      subst htx0
      subst hcs0
      have hinp : printElem [] (.elem t a none []) ++ rest
          = '<' :: (prefName t ++ (printAttrs a ++ '/' :: '>' :: rest)) := by
        rw [printElem_eq]
        simp
      have hlen1 : (printElem [] (.elem t a none [])).length
          = 1 + (prefName t).length + (printAttrs a).length + 2 := by
        rw [printElem_eq]
        simp only [Option.isNone_none, List.isEmpty_nil, Bool.and_self, if_pos,
          List.length_append, List.length_cons, List.length_nil]
        omega
      obtain ⟨f1, rfl⟩ : ∃ f1, f = f1 + 1 := ⟨f - 1, by omega⟩
      rw [hinp]
      simp only [parseElem]
      have htake := takeDropWhile_append isNameChar (prefName t)
        (printAttrs a ++ '/' :: '>' :: rest) hnmchars
        (attrsHead_not_name a '/' (Or.inr rfl) ('>' :: rest))
      rw [htake.1, htake.2, hnmE]
      simp only [Bool.false_eq_true, if_false]
      rw [hraweq, parseAttrList_raw _ f1 '/' ('>' :: rest) hrawcond (Or.inr rfl)
        (by rw [← hrawlen]; omega)]
      conv_lhs => whnf
      rw [henv, resolveRaw_prefName env hg t hkn hvl]
      conv_lhs => whnf
      rw [hplain]
    · -- open/close branch
      have hne2 : (tx.isNone && cs.isEmpty) = false := by
        cases hb : (tx.isNone && cs.isEmpty)
        · rfl
        · exact absurd hb hbr
      obtain ⟨R1, hR1⟩ : ∃ R1,
          printKids cs ++ '<' :: '/' :: (prefName t ++ '>' :: rest) = '<' :: R1 := by
        cases cs with
        | nil => exact ⟨'/' :: (prefName t ++ '>' :: rest), rfl⟩
        | cons c2 cs2 =>
          obtain ⟨c1, l1, hsh2, _⟩ :=
            printElem_head [] c2 (printableL_mem hkids c2 (by simp))
          refine ⟨c1 :: (l1 ++ (printKids cs2 ++ '<' :: '/' :: (prefName t ++ '>' :: rest))), ?_⟩
          show printElem [] c2 ++ printKids cs2 ++ _ = _
          rw [hsh2]
          simp
      have htake2 := takeDropWhile_append isNameChar (prefName t) ('>' :: rest) hnmchars
        (by intro c l hcl; injection hcl with h1 _; subst h1; decide)
      have hkp := parseKids_print cs (printableL_mem hkids)
        (fun d hd => ihc d hd (printableL_mem hkids d hd))
      cases tx with
      | none =>
        have hinp : printElem [] (.elem t a none cs) ++ rest
            = '<' :: (prefName t ++ (printAttrs a ++ '>' ::
                (printKids cs ++ '<' :: '/' :: (prefName t ++ '>' :: rest)))) := by
          rw [printElem_eq, if_neg (by rw [hne2]; simp)]
          simp
        have hlen2 : (printElem [] (.elem t a none cs)).length
            = 1 + (prefName t).length + (printAttrs a).length + 1
              + (printKids cs).length + 2 + (prefName t).length + 1 := by
          rw [printElem_eq, if_neg (by rw [hne2]; simp)]
          simp only [List.length_append, List.length_cons, List.length_nil]
          omega
        obtain ⟨f1, rfl⟩ : ∃ f1, f = f1 + 1 := ⟨f - 1, by omega⟩
        rw [hinp]
        simp only [parseElem]
        have htake := takeDropWhile_append isNameChar (prefName t)
          (printAttrs a ++ '>' ::
            (printKids cs ++ '<' :: '/' :: (prefName t ++ '>' :: rest))) hnmchars
          (attrsHead_not_name a '>' (Or.inl rfl) _)
        rw [htake.1, htake.2, hnmE]
        simp only [Bool.false_eq_true, if_false]
        rw [hraweq, parseAttrList_raw _ f1 '>' _ hrawcond (Or.inl rfl)
          (by rw [← hrawlen]; omega)]
        conv_lhs => whnf
        rw [henv, resolveRaw_prefName env hg t hkn hvl]
        conv_lhs => whnf
        obtain ⟨f2, rfl⟩ : ∃ f2, f1 = f2 + 1 := ⟨f1 - 1, by omega⟩
        rw [hR1]
        conv_lhs => whnf
        rw [← hR1, hkp (f2 + 1) env (prefName t ++ '>' :: rest) hg (by omega)]
        conv_lhs => whnf
        rw [htake2.1, htake2.2]
        rw [show (instDecidableEqList (prefName t) (prefName t) : Decidable (prefName t = prefName t))
            = isTrue rfl from Subsingleton.elim _ _]
        conv_lhs => whnf
        rw [hplain]
        rfl
      | some s =>
        have hsne : s.toList.isEmpty = false := by
          have hvt := htxv s rfl
          unfold validText at hvt
          rw [Bool.and_eq_true] at hvt
          cases hsl : s.toList with
          | nil => exact absurd (toList_eq_nil hsl) (by simpa using hvt.1)
          | cons b l => rfl
        have hinp : printElem [] (.elem t a (some s) cs) ++ rest
            = '<' :: (prefName t ++ (printAttrs a ++ '>' ::
                (escText s.toList ++
                  (printKids cs ++ '<' :: '/' :: (prefName t ++ '>' :: rest))))) := by
          rw [printElem_eq, if_neg (by rw [hne2]; simp)]
          simp
        have hlen2 : (printElem [] (.elem t a (some s) cs)).length
            = 1 + (prefName t).length + (printAttrs a).length + 1
              + (escText s.toList).length
              + (printKids cs).length + 2 + (prefName t).length + 1 := by
          rw [printElem_eq, if_neg (by rw [hne2]; simp)]
          simp only [List.length_append, List.length_cons, List.length_nil]
          omega
        obtain ⟨f1, rfl⟩ : ∃ f1, f = f1 + 1 := ⟨f - 1, by omega⟩
        rw [hinp]
        simp only [parseElem]
        have htake := takeDropWhile_append isNameChar (prefName t)
          (printAttrs a ++ '>' ::
            (escText s.toList ++
              (printKids cs ++ '<' :: '/' :: (prefName t ++ '>' :: rest)))) hnmchars
          (attrsHead_not_name a '>' (Or.inl rfl) _)
        rw [htake.1, htake.2, hnmE]
        simp only [Bool.false_eq_true, if_false]
        rw [hraweq, parseAttrList_raw _ f1 '>' _ hrawcond (Or.inl rfl)
          (by rw [← hrawlen]; omega)]
        conv_lhs => whnf
        rw [henv, resolveRaw_prefName env hg t hkn hvl]
        conv_lhs => whnf
        rw [hR1, scanText_escText s.toList f1 R1 (by omega)]
        conv_lhs => whnf
        rw [← hR1, hkp f1 env (prefName t ++ '>' :: rest) hg (by omega)]
        conv_lhs => whnf
        rw [htake2.1, htake2.2]
        rw [show (instDecidableEqList (prefName t) (prefName t) : Decidable (prefName t = prefName t))
            = isTrue rfl from Subsingleton.elim _ _]
        conv_lhs => whnf
        rw [hplain, hsne]
        rfl

/-- Skipping the XML declaration consumes up to the first question-mark
angle pair. -/
theorem dropAfterDeclEnd_no_qmark : ∀ (pre : List Char) (f : Nat) (rest : List Char),
    (∀ c ∈ pre, c ≠ '?') → pre.length + 1 ≤ f →
    dropAfterDeclEnd f (pre ++ '?' :: '>' :: rest) = .ok rest := by
  intro pre
  induction pre with
  | nil =>
    intro f rest _ hf
    obtain ⟨f1, rfl⟩ : ∃ f1, f = f1 + 1 := ⟨f - 1, by omega⟩
    rfl
  | cons c pre' ih =>
    intro f rest hq hf
    obtain ⟨f1, rfl⟩ : ∃ f1, f = f1 + 1 := ⟨f - 1, by omega⟩
    have hcq : c ≠ '?' := hq c (List.mem_cons_self _ _)
    simp only [List.cons_append, dropAfterDeclEnd]
    split
    · next heq =>
      rw [List.cons.injEq] at heq
      exact absurd heq.1 hcq
    · next x xs heq =>
      rw [List.cons.injEq] at heq
      rw [← heq.2]
      refine ih f1 rest (fun d hd => hq d (List.mem_cons_of_mem _ hd)) ?_
      have hl : (c :: pre').length = pre'.length + 1 := rfl
      omega
    · next heq =>
      cases heq

/-- Parsing a serialized envelope root (with the hoisted namespace
declarations) recovers the root element. -/
theorem parseElem_root (cs : List Xml) (hk : printableL cs = true) (hne : cs ≠ [])
    (f : Nat) (rest : List Char)
    (hf : (printElem nsDecls (sElem "Envelope" [] none cs)).length + 1 ≤ f) :
    parseElem f emptyEnv (printElem nsDecls (sElem "Envelope" [] none cs) ++ rest)
      = .ok (sElem "Envelope" [] none cs, rest) := by
  have hgroot : goodEnv ⟨none, [("s", SOAP_NS), ("t", TYPE_NS)]⟩ := ⟨rfl, rfl, rfl⟩
  have hkp := parseKids_print cs (printableL_mem hk)
    (fun d hd => parseElem_print d (printableL_mem hk d hd))
  have hcse : cs.isEmpty = false := by
    cases cs with
    | nil => exact absurd rfl hne
    | cons b l => rfl
  obtain ⟨R1, hR1⟩ : ∃ R1,
      printKids cs ++ '<' :: '/' :: ("s:Envelope".toList ++ '>' :: rest) = '<' :: R1 := by
    cases cs with
    | nil => exact absurd rfl hne
    | cons c2 cs2 =>
      obtain ⟨c1, l1, hsh2, _⟩ := printElem_head [] c2 (printableL_mem hk c2 (by simp))
      refine ⟨c1 :: (l1 ++ (printKids cs2 ++ '<' :: '/' :: ("s:Envelope".toList ++ '>' :: rest))), ?_⟩
      show printElem [] c2 ++ printKids cs2 ++ _ = _
      rw [hsh2]
      simp
  have hcond : ¬(((none : Option String).isNone && cs.isEmpty) = true) := by
    simp [hcse]
  have hinp : printElem nsDecls (sElem "Envelope" [] none cs) ++ rest
      = '<' :: ("s:Envelope".toList ++ (nsDecls ++ '>' ::
          (printKids cs ++ '<' :: '/' :: ("s:Envelope".toList ++ '>' :: rest)))) := by
    show printElem nsDecls (.elem ⟨some SOAP_NS, "Envelope"⟩ [] none cs) ++ rest = _
    rw [printElem_eq, if_neg hcond]
    simp [prefName_soap, printAttrs]
  have hlen2 : (printElem nsDecls (sElem "Envelope" [] none cs)).length
      = 1 + 10 + nsDecls.length + 1 + (printKids cs).length + 2 + 10 + 1 := by
    show (printElem nsDecls (.elem ⟨some SOAP_NS, "Envelope"⟩ [] none cs)).length = _
    rw [printElem_eq, if_neg hcond]
    simp only [prefName_soap, List.length_append, List.length_cons, List.length_nil]
    simp [printAttrs]
    omega
  obtain ⟨f1, rfl⟩ : ∃ f1, f = f1 + 1 := ⟨f - 1, by omega⟩
  rw [hinp]
  simp only [parseElem]
  have htake := takeDropWhile_append isNameChar ("s:Envelope".toList)
    (nsDecls ++ '>' :: (printKids cs ++ '<' :: '/' :: ("s:Envelope".toList ++ '>' :: rest)))
    (by decide)
    (by
      intro c l hcl
      rw [show nsDecls ++ '>' :: (printKids cs ++ '<' :: '/' :: ("s:Envelope".toList ++ '>' :: rest))
          = ' ' :: (nsDecls.tail ++ '>' :: (printKids cs ++ '<' :: '/' :: ("s:Envelope".toList ++ '>' :: rest)))
        from rfl] at hcl
      injection hcl with h1 _
      subst h1
      decide)
  rw [htake.1, htake.2]
  rw [show ("s:Envelope".toList).isEmpty = false from rfl]
  simp only [Bool.false_eq_true, if_false]
  have hnsd : nsDecls ++ '>' :: (printKids cs ++ '<' :: '/' :: ("s:Envelope".toList ++ '>' :: rest))
      = printRawAttrs [("xmlns:t".toList, TYPE_NS.toList), ("xmlns:s".toList, SOAP_NS.toList)]
        ++ '>' :: (printKids cs ++ '<' :: '/' :: ("s:Envelope".toList ++ '>' :: rest)) := by
    rfl
  rw [hnsd, parseAttrList_raw _ f1 '>' _ (by decide) (Or.inl rfl)
    (by
      have he : printRawAttrs [("xmlns:t".toList, TYPE_NS.toList),
          ("xmlns:s".toList, SOAP_NS.toList)] = nsDecls := rfl
      rw [he]
      omega)]
  conv_lhs => whnf
  obtain ⟨f2, rfl⟩ : ∃ f2, f1 = f2 + 1 := ⟨f1 - 1, by omega⟩
  rw [hR1]
  conv_lhs => whnf
  rw [show updateEnv emptyEnv [("xmlns:t".toList, TYPE_NS.toList), ("xmlns:s".toList, SOAP_NS.toList)]
      = (⟨none, [("s", SOAP_NS), ("t", TYPE_NS)]⟩ : NsEnv) from rfl]
  rw [← hR1, hkp (f2 + 1) ⟨none, [("s", SOAP_NS), ("t", TYPE_NS)]⟩
    ("s:Envelope".toList ++ '>' :: rest) hgroot (by omega)]
  rfl

/-- Serializing an envelope root and parsing the bytes back recovers the
root exactly. -/
theorem etreeXML_tostring_root (cs : List Xml) (hk : printableL cs = true) (hne : cs ≠ []) :
    etreeXML (tostring (sElem "Envelope" [] none cs)) = .ok (sElem "Envelope" [] none cs) := by
  obtain ⟨c0, l0, hsh, _⟩ := printElem_head nsDecls (sElem "Envelope" [] none cs)
    (by
      rw [show printableE (sElem "Envelope" [] none cs) = printableL cs from rfl]
      exact hk)
  unfold etreeXML tostring
  rw [show (String.mk (xmlDeclChars ++ printElem nsDecls (sElem "Envelope" [] none cs))).toList
      = xmlDeclChars ++ printElem nsDecls (sElem "Envelope" [] none cs) from rfl]
  rw [show xmlDeclChars
      = '<' :: '?' :: ("xml version='1.0' encoding='utf-8'".toList ++ '?' :: '>' :: ['\n'])
    from rfl]
  rw [show (('<' :: '?' :: ("xml version='1.0' encoding='utf-8'".toList ++ '?' :: '>' :: ['\n']))
        ++ printElem nsDecls (sElem "Envelope" [] none cs)).take 2 = ['<', '?'] from rfl]
  rw [if_pos rfl]
  rw [show (('<' :: '?' :: ("xml version='1.0' encoding='utf-8'".toList ++ '?' :: '>' :: ['\n']))
        ++ printElem nsDecls (sElem "Envelope" [] none cs)).drop 2
      = "xml version='1.0' encoding='utf-8'".toList
          ++ '?' :: '>' :: ('\n' :: printElem nsDecls (sElem "Envelope" [] none cs)) from by simp]
  rw [dropAfterDeclEnd_no_qmark "xml version='1.0' encoding='utf-8'".toList _
    ('\n' :: printElem nsDecls (sElem "Envelope" [] none cs)) (by decide)
    (by simp only [List.length_append, List.length_cons, List.length_nil]; omega)]
  conv_lhs => whnf
  rw [skipWs_cons_ws '\n' (by decide), hsh, skipWs_cons_not '<' (by decide), ← hsh]
  rw [show printElem nsDecls (sElem "Envelope" [] none cs)
      = printElem nsDecls (sElem "Envelope" [] none cs) ++ [] from (List.append_nil _).symm]
  rw [parseElem_root cs hk hne _ [] (by
    simp only [List.length_append, List.length_cons, List.length_nil]
    omega)]
  rfl

/-! ## Claim C7 -/

/-- C7: for every body fragment of the serializable sub-model and either
header flag, serializing the built envelope and parsing it back recovers
the envelope unchanged; the envelope's children are exactly the selected
header followed by the Body wrapper — one Header (never omitted) and one
Body — and the header is the bare version marker when the flag is false
and the full timezone subtree (recovered unchanged through the
round-trip) when it is true. -/
theorem C7_envelope_roundtrip (body : Xml) (hb : printableE body = true) (flag : Bool) :
    etreeXML (tostring (_wrap_soap_xml_request body flag))
      = .ok (_wrap_soap_xml_request body flag)
    ∧ (_wrap_soap_xml_request body flag).children
        = [_exchange_header flag, sElem "Body" [] none [body]]
    ∧ ((_wrap_soap_xml_request body flag).children.filter
        (fun c => c.tag = ⟨some SOAP_NS, "Header"⟩)).length = 1
    ∧ ((_wrap_soap_xml_request body flag).children.filter
        (fun c => c.tag = ⟨some SOAP_NS, "Body"⟩)).length = 1
    ∧ _exchange_header false
        = sElem "Header" [] none [tElem "RequestServerVersion" [("Version", "Exchange2010")] none []]
    ∧ _exchange_header true = user_availability_header := by
  have hh : printableE (_exchange_header flag) = true := by
    cases flag
    · decide
    · decide
  have hbody : printableE (sElem "Body" [] none [body]) = true := by
    rw [show printableE (sElem "Body" [] none [body]) = printableL [body] from rfl]
    unfold printableL
    rw [hb]
    rfl
  have hkl : printableL [_exchange_header flag, sElem "Body" [] none [body]] = true := by
    unfold printableL
    rw [hh]
    unfold printableL
    rw [hbody]
    rfl
  refine ⟨?_, rfl, ?_, ?_, rfl, rfl⟩
  · exact etreeXML_tostring_root _ hkl (by simp)
  · show ([_exchange_header flag, sElem "Body" [] none [body]].filter
      (fun c => c.tag = ⟨some SOAP_NS, "Header"⟩)).length = 1
    cases flag <;> rfl
  · show ([_exchange_header flag, sElem "Body" [] none [body]].filter
      (fun c => c.tag = ⟨some SOAP_NS, "Body"⟩)).length = 1
    cases flag <;> rfl

/-- Witness for C7 at a concrete body fragment, for both header flags. -/
theorem C7_envelope_roundtrip_witness :
    etreeXML (tostring (_wrap_soap_xml_request
        (tElem "FreeBusyRequest" [("Kind", "sample")] (some "ok") []) false))
      = .ok (_wrap_soap_xml_request
        (tElem "FreeBusyRequest" [("Kind", "sample")] (some "ok") []) false)
    ∧ etreeXML (tostring (_wrap_soap_xml_request
        (tElem "FreeBusyRequest" [("Kind", "sample")] (some "ok") []) true))
      = .ok (_wrap_soap_xml_request
        (tElem "FreeBusyRequest" [("Kind", "sample")] (some "ok") []) true) :=
  ⟨(C7_envelope_roundtrip (tElem "FreeBusyRequest" [("Kind", "sample")] (some "ok") [])
      (by decide) false).1,
   (C7_envelope_roundtrip (tElem "FreeBusyRequest" [("Kind", "sample")] (some "ok") [])
      (by decide) true).1⟩

/-! ## Claim C2 -/

/-- C2: for every response that encodes and parses as well-formed XML:
whenever any element anywhere in the document (document-wide search, any
depth) expands to `Fault` in the SOAP envelope namespace, `_parse` raises
the fault-flavoured `FailedExchangeException` whose payload is exactly the
text of the FIRST matching node, and the caller never receives the tree;
with no such element the parsed tree is returned. -/
theorem C2_fault_detection (s : String) (enc : Encoding) (b : String) (tree : Xml)
    (henc : pyEncode enc s = .ok b) (hparse : etreeXML b = .ok tree) :
    (∀ f fs, faultNodes tree = f :: fs →
      _parse s enc = .error (.failedExchangeException "SOAP Fault from Exchange server"
        (some f.text)))
    ∧ (faultNodes tree = [] → _parse s enc = .ok tree) := by
  constructor
  · intro f fs hf
    unfold _parse
    simp [henc, hparse, _check_for_errors, _check_for_SOAP_fault, hf]
  · intro hf
    unfold _parse
    simp [henc, hparse, _check_for_errors, _check_for_SOAP_fault, hf]

/-- Witness for C2 at two concrete responses: one with a nested fault
(raised with the first fault node's text as payload) and one without
(tree returned). -/
theorem C2_fault_detection_witness :
    _parse "<s:Envelope xmlns:s=\"http://schemas.xmlsoap.org/soap/envelope/\"><s:Body><s:Fault>boom</s:Fault><s:Fault>later</s:Fault></s:Body></s:Envelope>" Encoding.utf8
      = .error (.failedExchangeException "SOAP Fault from Exchange server" (some (some "boom")))
    ∧ _parse "<s:Envelope xmlns:s=\"http://schemas.xmlsoap.org/soap/envelope/\"><s:Body>fine</s:Body></s:Envelope>" Encoding.utf8
      = .ok (Xml.elem ⟨some SOAP_NS, "Envelope"⟩ [] none
          [Xml.elem ⟨some SOAP_NS, "Body"⟩ [] (some "fine") []]) :=
  ⟨(C2_fault_detection _ Encoding.utf8 _
      (Xml.elem ⟨some SOAP_NS, "Envelope"⟩ [] none
        [Xml.elem ⟨some SOAP_NS, "Body"⟩ [] none
          [Xml.elem ⟨some SOAP_NS, "Fault"⟩ [] (some "boom") [],
           Xml.elem ⟨some SOAP_NS, "Fault"⟩ [] (some "later") []]])
      rfl (by rfl)).1
      (Xml.elem ⟨some SOAP_NS, "Fault"⟩ [] (some "boom") [])
      [Xml.elem ⟨some SOAP_NS, "Fault"⟩ [] (some "later") []] (by rfl),
   (C2_fault_detection _ Encoding.utf8 _
      (Xml.elem ⟨some SOAP_NS, "Envelope"⟩ [] none
        [Xml.elem ⟨some SOAP_NS, "Body"⟩ [] (some "fine") []])
      rfl (by rfl)).2 (by rfl)⟩

/-! ## Claim C4 -/

/-- Entity decoding fails only with an XML syntax error. -/
theorem parseEntity_error (l : List Char) (e : PyError)
    (h : parseEntity l = .error e) : ∃ m, e = .xmlSyntaxError m := by
  unfold parseEntity at h
  split at h <;> (cases h; try exact ⟨_, rfl⟩)

/-- Text scanning fails only with an XML syntax error. -/
theorem scanText_error (stop : Char) : ∀ (f : Nat) (input : List Char) (e : PyError),
    scanText stop f input = .error e → ∃ m, e = .xmlSyntaxError m := by
  intro f
  induction f with
  | zero =>
    intro input e h
    cases h
    exact ⟨_, rfl⟩
  | succ f ih =>
    intro input e h
    cases input with
    | nil => cases h
    | cons c rest =>
      simp only [scanText] at h
      split at h
      · cases h
      · split at h
        · split at h
          · next e0 hpe =>
            cases h
            exact parseEntity_error _ _ hpe
          · split at h
            · next e0 hsc =>
              cases h
              exact ih _ _ hsc
            · cases h
        · split at h
          · next e0 hsc =>
            cases h
            exact ih _ _ hsc
          · cases h

/-- Attribute-list parsing fails only with an XML syntax error. -/
theorem parseAttrList_error : ∀ (f : Nat) (input : List Char) (e : PyError),
    parseAttrList f input = .error e → ∃ m, e = .xmlSyntaxError m := by
  intro f
  induction f with
  | zero =>
    intro input e h
    cases h
    exact ⟨_, rfl⟩
  | succ f ih =>
    intro input e h
    simp only [parseAttrList] at h
    split at h
    · cases h
      exact ⟨_, rfl⟩
    · split at h
      · cases h
      · split at h
        · cases h
          exact ⟨_, rfl⟩
        · split at h
          · split at h
            · split at h
              · next e0 hsc =>
                cases h
                exact scanText_error _ _ _ _ hsc
              · split at h
                · split at h
                  · next e0 hal =>
                    cases h
                    exact ih _ _ hal
                  · cases h
                · cases h
                  exact ⟨_, rfl⟩
            · split at h
              · next e0 hsc =>
                cases h
                exact scanText_error _ _ _ _ hsc
              · split at h
                · split at h
                  · next e0 hal =>
                    cases h
                    exact ih _ _ hal
                  · cases h
                · cases h
                  exact ⟨_, rfl⟩
            · cases h
              exact ⟨_, rfl⟩
          · cases h
            exact ⟨_, rfl⟩

/-- Unknown tag abbreviations fail only with an XML syntax error. -/
theorem resolveRaw_error (env : NsEnv) (nm : List Char) (e : PyError)
    (h : resolveRaw env nm = .error e) : ∃ m, e = .xmlSyntaxError m := by
  unfold resolveRaw at h
  split at h
  · cases h
  · split at h
    · cases h
    · cases h
      exact ⟨_, rfl⟩

/-- Element and sibling parsing fail only with an XML syntax error. -/
theorem parse_error_kind : ∀ (f : Nat),
    (∀ (env : NsEnv) (input : List Char) (e : PyError),
      parseElem f env input = .error e → ∃ m, e = .xmlSyntaxError m)
    ∧ (∀ (env : NsEnv) (input : List Char) (e : PyError),
      parseKids f env input = .error e → ∃ m, e = .xmlSyntaxError m) := by
  intro f
  induction f with
  | zero =>
    constructor
    · intro env input e h
      cases h
      exact ⟨_, rfl⟩
    · intro env input e h
      cases h
      exact ⟨_, rfl⟩
  | succ f ih =>
    constructor
    · intro env input e h
      simp only [parseElem] at h
      split at h
      · split at h
        · cases h
          exact ⟨_, rfl⟩
        · split at h
          · next e0 hal =>
            cases h
            exact parseAttrList_error _ _ _ hal
          · split at h
            · next e0 hrr =>
              cases h
              exact resolveRaw_error _ _ _ hrr
            · split at h
              · cases h
              · split at h
                · next e0 hsc =>
                  cases h
                  exact scanText_error _ _ _ _ hsc
                · split at h
                  · next e0 hpk =>
                    cases h
                    exact ih.2 _ _ _ hpk
                  · split at h
                    · split at h
                      · split at h
                        · cases h
                        · cases h
                          exact ⟨_, rfl⟩
                      · cases h
                        exact ⟨_, rfl⟩
                    · cases h
                      exact ⟨_, rfl⟩
              · cases h
                exact ⟨_, rfl⟩
      · cases h
        exact ⟨_, rfl⟩
    · intro env input e h
      simp only [parseKids] at h
      split at h
      · cases h
      · split at h
        · next e0 hpe =>
          cases h
          exact ih.1 _ _ _ hpe
        · split at h
          · next e0 hsc =>
            cases h
            exact scanText_error _ _ _ _ hsc
          · split at h
            · split at h
              · next e0 hpk =>
                cases h
                exact ih.2 _ _ _ hpk
              · cases h
            · cases h
              exact ⟨_, rfl⟩
      · cases h
        exact ⟨_, rfl⟩

/-- Skipping the XML declaration fails only with an XML syntax error. -/
theorem dropAfterDeclEnd_error : ∀ (f : Nat) (input : List Char) (e : PyError),
    dropAfterDeclEnd f input = .error e → ∃ m, e = .xmlSyntaxError m := by
  intro f
  induction f with
  | zero =>
    intro input e h
    cases h
    exact ⟨_, rfl⟩
  | succ f ih =>
    intro input e h
    simp only [dropAfterDeclEnd] at h
    split at h
    · cases h
    · exact ih _ _ h
    · cases h
      exact ⟨_, rfl⟩

/-- The parser model fails only with an XML syntax error — exactly the
exception class the `except` clause of `_parse` translates. -/
theorem etreeXML_error (b : String) (e : PyError)
    (h : etreeXML b = .error e) : ∃ m, e = .xmlSyntaxError m := by
  unfold etreeXML at h
  split at h
  · next e0 hd =>
    cases h
    split at hd
    · exact dropAfterDeclEnd_error _ _ _ hd
    · cases hd
  · split at h
    · next e0 hpe =>
      cases h
      exact (parse_error_kind _).1 _ _ _ hpe
    · split at h
      · cases h
      · cases h
        exact ⟨_, rfl⟩

/-- C4 counterexample: a response text the ascii codec cannot encode makes
`_parse` raise the RAW UnicodeEncodeError — not the translated
FailedExchangeException — because the `except` clause catches only
`etree.XMLSyntaxError` and `TypeError`, and UnicodeEncodeError is neither.
The claim says no raw decoding exception ever escapes. -/
theorem C4_counterexample :
    _parse "<a>é</a>" Encoding.ascii
      = .error (.unicodeEncodeError "ascii codec cannot encode character in <a>é</a>") := by
  rfl

/-- C4 amended: when the text encodes and XML parsing fails, the failure is
always an XML syntax error and `_parse` translates it into the
FailedExchangeException carrying the parse error and the
authentication hint; but a text the codec cannot encode escapes as the raw
UnicodeEncodeError. -/
theorem C4_malformed_amended :
    (∀ (s b m : String) (enc : Encoding), pyEncode enc s = .ok b →
      etreeXML b = .error (.xmlSyntaxError m) →
      _parse s enc = .error (.failedExchangeException
        ("Unable to parse response from Exchange - check your login information. Error: " ++ m)
        none))
    ∧ (∀ (b : String) (e : PyError), etreeXML b = .error e → ∃ m, e = .xmlSyntaxError m)
    ∧ (∀ (s m : String) (enc : Encoding), pyEncode enc s = .error (.unicodeEncodeError m) →
      _parse s enc = .error (.unicodeEncodeError m)) := by
  refine ⟨?_, etreeXML_error, ?_⟩
  · intro s b m enc henc hx
    unfold _parse
    simp [henc, hx]
  · intro s m enc henc
    unfold _parse
    simp [henc]

/-- Witness for C4's amended theorem: a truncated tag is translated into
the hint-carrying FailedExchangeException, while an unencodable text
escapes raw. -/
theorem C4_malformed_amended_witness :
    _parse "<broken" Encoding.utf8
      = .error (.failedExchangeException
        ("Unable to parse response from Exchange - check your login information. Error: "
          ++ "unclosed tag") none)
    ∧ _parse "é" Encoding.ascii
      = .error (.unicodeEncodeError "ascii codec cannot encode character in é") :=
  ⟨C4_malformed_amended.1 "<broken" "<broken" "unclosed tag" Encoding.utf8 rfl (by rfl),
   C4_malformed_amended.2.2 "é" "ascii codec cannot encode character in é" Encoding.ascii
     (by rfl)⟩

/-! ## Claim C6 -/

/-- C6 counterexample: a matched node that is an empty element (`<Flag/>`,
text `None`) under the `bool` cast makes the extraction raise an
AttributeError (`None.lower()`), so the boolean cast is not failure-free
for every matched node, against the claim. -/
theorem C6_counterexample :
    _xpath_to_dict (Xml.elem ⟨none, "r"⟩ [] none [Xml.elem ⟨none, "Flag"⟩ [] none []])
        [("flag", ⟨[⟨none, "Flag"⟩], some "bool"⟩)] []
      = .error (.attributeError "NoneType object has no attribute lower") := by
  rfl

/-- C6 amended: on every matched node whose text is non-null the boolean
cast never fails and yields true exactly when the lower-cased text equals
`"true"`; a matched node with null text (an empty element) instead raises
an AttributeError from `None.lower()`. -/
theorem C6_bool_cast_amended :
    (∀ (node : Xml) (s : String), node.text = some s →
      coerceNode (some "bool") node = .ok (.vBool (pyLower s = "true")))
    ∧ (∀ (node : Xml), node.text = none →
      coerceNode (some "bool") node
        = .error (.attributeError "NoneType object has no attribute lower")) := by
  constructor
  · intro node s h
    unfold coerceNode
    rw [h]
    simp
  · intro node h
    unfold coerceNode
    rw [h]
    simp

/-- Witness for C6's amended theorem: `"True"` coerces to true, `"no"` and
`""` coerce to false, and a null-text node raises. -/
theorem C6_bool_cast_amended_witness :
    coerceNode (some "bool") (Xml.elem ⟨none, "F"⟩ [] (some "True") []) = .ok (.vBool true)
    ∧ coerceNode (some "bool") (Xml.elem ⟨none, "F"⟩ [] (some "no") []) = .ok (.vBool false)
    ∧ coerceNode (some "bool") (Xml.elem ⟨none, "F"⟩ [] (some "") []) = .ok (.vBool false)
    ∧ coerceNode (some "bool") (Xml.elem ⟨none, "F"⟩ [] none [])
        = .error (.attributeError "NoneType object has no attribute lower") :=
  ⟨C6_bool_cast_amended.1 (Xml.elem ⟨none, "F"⟩ [] (some "True") []) "True" rfl,
   C6_bool_cast_amended.1 (Xml.elem ⟨none, "F"⟩ [] (some "no") []) "no" rfl,
   C6_bool_cast_amended.1 (Xml.elem ⟨none, "F"⟩ [] (some "") []) "" rfl,
   C6_bool_cast_amended.2 (Xml.elem ⟨none, "F"⟩ [] none []) rfl⟩

end Soap
